import Mathlib

/-!
Shallow embedding of the openlma repository (source files `lmalocate/phasor.py`
and `lmalocate/raw_io.py`) together with theorems settling claims about its
behaviour.  Machine integers of the source are modelled as `Int`, byte strings
as `List Nat`, numpy arrays as `Array`/`List`, Python floats as exact rationals,
and raised exceptions as `Option`/`Except` results.
-/

/-! ## Part 1: the coincidence scan `Phasor.find_initial_guesses` (phasor.py)

`Phasor.sortedPeaks` is an integer array of rows `(source time, sensor index,
arrival time, power)`; `find_initial_guesses` walks it with a start index
`iGuess`, a window length `n` and a watermark `lastGuess`.
-/

/-- One row of the `Phasor.sortedPeaks` array: source time, sensor index,
arrival time and power, all stored as machine integers in the source. -/
structure Peak where
  source : Int
  sensor : Int
  arrival : Int
  power : Int
deriving DecidableEq, Repr, Inhabited

/-- The inner window-growth loop of `find_initial_guesses`:
`while sortedPeaks[iGuess+n,0] - sortedPeaks[iGuess,0] < windowLength: n += 1`.
The result `none` models the numpy `IndexError` raised when `iGuess+n` (or
`iGuess`) reaches the array length; numpy raises before the subtraction and
comparison are evaluated, so the bounds tests guard the accesses here. -/
def growLoop (peaks : Array Peak) (wl : Int) (iG n : Nat) : Option Nat :=
  if h1 : iG + n < peaks.size then
    if h2 : iG < peaks.size then
      if peaks[iG + n].source - peaks[iG].source < wl then
        growLoop peaks wl iG (n + 1)
      else
        some n
    else
      none
  else
    none
termination_by peaks.size - (iG + n)

/-- The distinct-sensor count of `find_initial_guesses`: the Python `set()`
accumulated from `sortedPeaks[i,1]` for `i` in `arange(iGuess, iGuess+n)`.
`List.dedup` models set formation, so the list's length is the set's size.
(The accesses are in bounds whenever the grown window is, which the scan
guarantees; `getD` supplies a default merely to keep the function total.) -/
def windowSensors (peaks : Array Peak) (iG n : Nat) : List Int :=
  ((List.range n).map fun k => (peaks.getD (iG + k) default).sensor).dedup

/-- The outer loop of `find_initial_guesses`.  State: start index `iG`
(`iGuess`), watermark `lastG` (`lastGuess`), and the accepted clusters so far
(`self.guesses`), each recorded as its index range `(iGuess, iGuess+n)`
(the source stores `np.arange(iGuess, iGuess+n)`).  A `none` result propagates
the `IndexError` of the growth loop. -/
def scanLoop (peaks : Array Peak) (wl : Int) (ms : Nat) (iG lastG : Nat)
    (guesses : List (Nat × Nat)) : Option (List (Nat × Nat)) :=
  if _h : iG < peaks.size - ms then
    match growLoop peaks wl iG 1 with
    | none => none
    | some n =>
      if n > ms ∧ iG + n > lastG then
        if (windowSensors peaks iG n).length > ms then
          scanLoop peaks wl ms (iG + 1) (iG + n) (guesses ++ [(iG, iG + n)])
        else
          scanLoop peaks wl ms (iG + 1) lastG guesses
      else
        scanLoop peaks wl ms (iG + 1) lastG guesses
  else
    some guesses
termination_by peaks.size - iG
decreasing_by all_goals omega

/-- `Phasor.find_initial_guesses`: `guesses = []`, `lastGuess = 0`,
`iGuess = 0`, then the scan loop.  `minSensors` is taken as a natural number
(the source's default is 5); the loop guard `iGuess < len(sortedPeaks) -
minSensors` agrees with Python's integer subtraction because `iGuess ≥ 0`. -/
def findInitialGuesses (peaks : Array Peak) (wl : Int) (ms : Nat) :
    Option (List (Nat × Nat)) :=
  scanLoop peaks wl ms 0 0 []

/-! ### C1: the acceptance rule of the coincidence scan -/

/-- C1.  At any live iteration of the coincidence scan (start index `iG` still
inside the loop bound) whose window growth stopped with length `n`, the window
`[iG, iG+n)` is accepted as a candidate cluster if and only if `n > minSensors`
AND the number of distinct sensor indices in the window is `> minSensors` AND
`iG + n` exceeds the watermark recorded by the previously accepted cluster; on
acceptance the cluster is recorded, the watermark becomes `iG + n` and the
start index advances by 1, and on rejection the start index advances by 1. -/
theorem c1_acceptance_rule (peaks : Array Peak) (wl : Int) (ms : Nat)
    (iG lastG : Nat) (guesses : List (Nat × Nat)) (n : Nat)
    (hlive : iG < peaks.size - ms)
    (hgrow : growLoop peaks wl iG 1 = some n) :
    scanLoop peaks wl ms iG lastG guesses =
      if n > ms ∧ (windowSensors peaks iG n).length > ms ∧ iG + n > lastG then
        scanLoop peaks wl ms (iG + 1) (iG + n) (guesses ++ [(iG, iG + n)])
      else
        scanLoop peaks wl ms (iG + 1) lastG guesses := by
  conv_lhs => rw [scanLoop]
  rw [dif_pos hlive, hgrow]
  by_cases h1 : n > ms
  · by_cases h2 : iG + n > lastG
    · by_cases h3 : (windowSensors peaks iG n).length > ms
      · simp [h1, h2, h3]
      · simp [h1, h2, h3]
    · simp [h1, h2]
  · simp [h1]

/-- Witness for C1 at a concrete input: two peaks 1000 ns apart, window
length 100, `minSensors = 0`; growth stops at `n = 1` and the window is
accepted. -/
theorem c1_acceptance_rule_witness :
    (0 < (#[({ source := 0, sensor := 0, arrival := 0, power := 0 } : Peak),
            { source := 1000, sensor := 1, arrival := 1000, power := 0 }] : Array Peak).size - 0 ∧
      growLoop #[({ source := 0, sensor := 0, arrival := 0, power := 0 } : Peak),
            { source := 1000, sensor := 1, arrival := 1000, power := 0 }] 100 0 1 = some 1) ∧
    scanLoop #[({ source := 0, sensor := 0, arrival := 0, power := 0 } : Peak),
            { source := 1000, sensor := 1, arrival := 1000, power := 0 }] 100 0 0 0 [] =
      if 1 > 0 ∧ (windowSensors #[({ source := 0, sensor := 0, arrival := 0, power := 0 } : Peak),
            { source := 1000, sensor := 1, arrival := 1000, power := 0 }] 0 1).length > 0 ∧ 0 + 1 > 0 then
        scanLoop #[({ source := 0, sensor := 0, arrival := 0, power := 0 } : Peak),
            { source := 1000, sensor := 1, arrival := 1000, power := 0 }] 100 0 (0 + 1) (0 + 1) ([] ++ [(0, 0 + 1)])
      else
        scanLoop #[({ source := 0, sensor := 0, arrival := 0, power := 0 } : Peak),
            { source := 1000, sensor := 1, arrival := 1000, power := 0 }] 100 0 (0 + 1) 0 [] :=
  ⟨⟨by decide, by simp [growLoop]⟩,
    c1_acceptance_rule _ 100 0 0 0 [] 1 (by decide) (by simp [growLoop])⟩

/-! ### C2: the window-growth loop can run off the end of the array -/

/-- C2.  Failing input for the in-bounds claim: three peaks with identical
source times, `windowLength = 100`, `minSensors = 1`.  Every element from the
start index to the end of the array lies within the window, and the growth
loop reads `sortedPeaks[3]` of a length-3 array: the scan crashes with an
`IndexError` (modelled by `none`) instead of stopping in bounds. -/
theorem c2_growth_loop_out_of_bounds :
    findInitialGuesses
      #[({ source := 0, sensor := 0, arrival := 0, power := 0 } : Peak),
        { source := 0, sensor := 1, arrival := 0, power := 0 },
        { source := 0, sensor := 2, arrival := 0, power := 0 }] 100 1 = none := by
  simp [findInitialGuesses, scanLoop, growLoop]

/-! ### C3: the watermark does not stop later clusters from starting before an
earlier cluster's end -/

/-- Concrete source-time-sorted peak array on which the scan accepts the
clusters `[0,4)` and then `[2,6)`: the second accepted cluster starts at
index 2, strictly before the first cluster's recorded end index 4. -/
def c3Peaks : Array Peak :=
  #[{ source := 0, sensor := 0, arrival := 0, power := 0 },
    { source := 10, sensor := 1, arrival := 10, power := 0 },
    { source := 20, sensor := 2, arrival := 20, power := 0 },
    { source := 99, sensor := 3, arrival := 99, power := 0 },
    { source := 110, sensor := 0, arrival := 110, power := 0 },
    { source := 115, sensor := 1, arrival := 115, power := 0 },
    { source := 199, sensor := 0, arrival := 199, power := 0 },
    { source := 10000, sensor := 2, arrival := 10000, power := 0 }]

/-- C3 counterexample.  On `c3Peaks` with `windowLength = 100` and
`minSensors = 2` the scan accepts `[0,4)` and then `[2,6)`: the later
cluster's start index 2 is strictly less than the earlier cluster's recorded
end index 4, so accepted clusters can overlap that way. -/
theorem c3_counterexample :
    findInitialGuesses c3Peaks 100 2 = some [(0, 4), (2, 6)] ∧ 2 < 4 := by
  constructor
  · simp [findInitialGuesses, scanLoop, growLoop, c3Peaks, windowSensors,
      List.range_succ]
  · decide

/-- Invariant of the scan loop: if the accumulated clusters have strictly
increasing end indices, all of them bounded by the watermark, then so does any
successful final cluster list. -/
theorem scanLoop_ends_increasing (peaks : Array Peak) (wl : Int) (ms : Nat) :
    ∀ k iG lastG guesses res, peaks.size - iG ≤ k →
      guesses.Pairwise (fun a b => a.2 < b.2) →
      (∀ g ∈ guesses, g.2 ≤ lastG) →
      scanLoop peaks wl ms iG lastG guesses = some res →
      res.Pairwise (fun a b => a.2 < b.2) := by
  intro k
  induction k with
  | zero =>
    intro iG lastG guesses res hk hpw _hle hres
    rw [scanLoop, dif_neg (by omega)] at hres
    exact (Option.some.injEq _ _ ▸ hres) ▸ hpw
  | succ k ih =>
    intro iG lastG guesses res hk hpw hle hres
    rw [scanLoop] at hres
    by_cases hlive : iG < peaks.size - ms
    · rw [dif_pos hlive] at hres
      cases hgrow : growLoop peaks wl iG 1 with
      | none => rw [hgrow] at hres; exact absurd hres (by simp)
      | some n =>
        rw [hgrow] at hres
        dsimp only at hres
        by_cases hacc : n > ms ∧ iG + n > lastG
        · rw [if_pos hacc] at hres
          by_cases hsen : (windowSensors peaks iG n).length > ms
          · rw [if_pos hsen] at hres
            refine ih (iG + 1) (iG + n) _ res (by omega) ?_ ?_ hres
            · refine List.pairwise_append.mpr ⟨hpw, List.pairwise_singleton _ _, ?_⟩
              intro a ha b hb
              have hb2 : b = (iG, iG + n) := List.mem_singleton.mp hb
              have := hle a ha
              subst hb2
              omega
            · intro g hg
              rcases List.mem_append.mp hg with hg1 | hg1
              · have := hle g hg1; omega
              · have : g = (iG, iG + n) := List.mem_singleton.mp hg1
                subst this; omega
          · rw [if_neg hsen] at hres
            exact ih (iG + 1) lastG guesses res (by omega) hpw hle hres
        · rw [if_neg hacc] at hres
          exact ih (iG + 1) lastG guesses res (by omega) hpw hle hres
    · rw [dif_neg hlive] at hres
      exact (Option.some.injEq _ _ ▸ hres) ▸ hpw

/-- C3 amended.  The watermark only forces the accepted clusters' recorded
end indices to be strictly increasing; whenever the scan completes without an
index error, every later accepted cluster's end index exceeds every earlier
one's, while a later cluster's start index may still be smaller than an
earlier cluster's end index. -/
theorem c3_amended_ends_increasing (peaks : Array Peak) (wl : Int) (ms : Nat)
    (res : List (Nat × Nat))
    (hres : findInitialGuesses peaks wl ms = some res) :
    res.Pairwise (fun a b => a.2 < b.2) :=
  scanLoop_ends_increasing peaks wl ms peaks.size 0 0 [] res (by omega)
    List.Pairwise.nil (by intro g hg; cases hg) hres

/-- Witness for C3's amended theorem: the empty peak array, whose scan returns
an empty cluster list. -/
theorem c3_amended_ends_increasing_witness :
    findInitialGuesses (#[] : Array Peak) 100 2 = some [] ∧
      ([] : List (Nat × Nat)).Pairwise (fun a b => a.2 < b.2) :=
  ⟨by simp [findInitialGuesses, scanLoop], by
    exact c3_amended_ends_increasing #[] 100 2 []
      (by simp [findInitialGuesses, scanLoop])⟩

/-! ## Part 2: raw LMA packet decoding (raw_io.py)

Bytes are `Nat`s below 256, byte strings are `List Nat`.  `struct.unpack('<9h')`
and `struct.unpack('<3h')` decode little-endian signed 16-bit words; Python's
arbitrary-precision bitwise operators on those (possibly negative) words are
modelled by `pyAnd`, `pyShr`, `pyShl` and `pyOr` below.
-/

/-- One little-endian signed 16-bit word, as `struct.unpack('<h', ...)`
produces it from a low byte and a high byte. -/
def toInt16 (lo hi : Nat) : Int :=
  let u := lo % 256 + 256 * (hi % 256)
  if u < 32768 then (u : Int) else (u : Int) - 65536

/-- Python's `x & m` for a mask `m < 2^16` (all masks in the source are):
bit `i` of a Python integer's two's complement is bit `i` of `x mod 2^16`
for `i < 16`, so the result is `(x mod 2^16) &&& m`. -/
def pyAnd (x : Int) (m : Nat) : Int :=
  ((x % 65536).toNat &&& m : Nat)

/-- Python's arithmetic right shift `x >> n` (floor division by `2^n`). -/
def pyShr (x : Int) (n : Nat) : Int :=
  Int.ediv x (2 ^ n)

/-- Python's left shift `x << n`, which is exact multiplication by `2^n`. -/
def pyShl (x : Int) (n : Nat) : Int :=
  x * 2 ^ n

/-- Python's `x | y`; the source only applies it to non-negative operands
(results of maskings), where it is `Nat.lor`. -/
def pyOr (x y : Int) : Int :=
  (x.toNat ||| y.toNat : Nat)

/-- Decode failures of the packet constructors.  `badLength` is
`struct.error` (wrong number of bytes for the format string),
`malformedRecord` the "doesn't follow bit pattern" exceptions, and
`unsupportedVersion` the "Unknown raw data version" exception. -/
inductive DecodeErr where
  | badLength
  | malformedRecord
  | unsupportedVersion
deriving DecidableEq, Repr

instance {e a : Type} [DecidableEq e] [DecidableEq a] :
    DecidableEq (Except e a) := fun x y =>
  match x, y with
  | .error u, .error v => decidable_of_iff (u = v) (by simp)
  | .ok u, .ok v => decidable_of_iff (u = v) (by simp)
  | .error _, .ok _ => isFalse (by simp)
  | .ok _, .error _ => isFalse (by simp)

/-- A decoded `StatusPacket`.  `id` and `netid` hold the code point of the
Python character `chr(value + 64)`; `netid = -1` models the empty string
assigned by `decode_1011` (distinct from every `chr` code, matching Python
string inequality against any character). -/
structure StatusPacket where
  version : Int
  year : Int
  month : Int
  day : Int
  hour : Int
  minute : Int
  second : Int
  threshold : Int
  fifoStatus : Int
  phaseDiff : Int
  triggerCount : Int
  id : Int
  netid : Int
  gpsInfo : Int
  epoch : Int
deriving DecidableEq, Repr, Inhabited

/-- Modelled from the spec: the external `timestamp2epoch` collaborator
("calendar_to_epoch(y,m,d,H,M,S) -> seconds", a pure function giving seconds
since a fixed reference, monotone in calendar order) lives in the repository's
`common`/`constants` modules, which are not under `src/`; any fixed monotone
second count serves the claims, none of which depend on epoch values. -/
def timestamp2epoch (y mo d h mi s : Int) : Int :=
  ((y * 372 + mo * 31 + d) * 86400) + h * 3600 + mi * 60 + s

/-- The nine signed words `struct.unpack('<9h', inputString)` yields from an
18-byte status record. -/
def words9 (b : List Nat) : List Int :=
  (List.range 9).map fun k => toInt16 (b.getD (2 * k) 0) (b.getD (2 * k + 1) 0)

/-- `StatusPacket.decode_1011` (reference layout v12 with the network id
removed): field extraction from the six-bit-version families 10 and 11. -/
def decode_1011 (ws : List Int) (version : Int) : StatusPacket :=
  let w0 := ws.getD 0 0
  let w1 := ws.getD 1 0
  let w2 := ws.getD 2 0
  let w3 := ws.getD 3 0
  let w4 := ws.getD 4 0
  let w5 := ws.getD 5 0
  let w6 := ws.getD 6 0
  let w7 := ws.getD 7 0
  let year := pyAnd w0 0x7F + 2000
  let month := pyAnd w3 0x0F
  let day := pyAnd (pyShr w3 4) 0x1F
  let hour := pyAnd (pyShr w3 9) 0x1F
  let minute := pyAnd w2 0x3F
  let second := pyAnd (pyShr w2 6) 0x3F
  let phaseRaw := pyAnd w6 0x7FFF
  { version := version
    year := year
    month := month
    day := day
    hour := hour
    minute := minute
    second := second
    threshold := pyAnd w1 0xFF
    fifoStatus := pyAnd (pyShr w2 12) 0x07
    phaseDiff := if pyAnd (pyShr w1 14) 0x1 = 1 then -phaseRaw else phaseRaw
    triggerCount := pyAnd w4 0x3FFF
    id := pyOr (pyAnd (pyShr w1 5) 0x80) (pyAnd (pyShr w5 8) 0x7F) + 64
    netid := -1
    gpsInfo := pyOr (pyAnd w7 0x7FFF) (pyShl (pyAnd w1 0x2000) 2)
    epoch := timestamp2epoch year month day hour minute second }

/-- `StatusPacket.decode_1213` (reference layout v12): field extraction for
the six-bit-version families 12 and 13, which add the network id. -/
def decode_1213 (ws : List Int) (version : Int) : StatusPacket :=
  let w0 := ws.getD 0 0
  let w1 := ws.getD 1 0
  let w2 := ws.getD 2 0
  let w3 := ws.getD 3 0
  let w4 := ws.getD 4 0
  let w5 := ws.getD 5 0
  let w6 := ws.getD 6 0
  let w7 := ws.getD 7 0
  let year := pyAnd w0 0x7F + 2000
  let month := pyAnd w3 0x0F
  let day := pyAnd (pyShr w3 4) 0x1F
  let hour := pyAnd (pyShr w3 9) 0x1F
  let minute := pyAnd w2 0x3F
  let second := pyAnd (pyShr w2 6) 0x3F
  let phaseRaw := pyAnd w6 0x7FFF
  { version := version
    year := year
    month := month
    day := day
    hour := hour
    minute := minute
    second := second
    threshold := pyAnd w1 0xFF
    fifoStatus := pyAnd (pyShr w2 12) 0x07
    phaseDiff := if pyAnd (pyShr w1 14) 0x1 = 1 then -phaseRaw else phaseRaw
    triggerCount := pyAnd w4 0x3FFF
    id := pyOr (pyAnd (pyShr w1 5) 0x80) (pyAnd (pyShr w5 8) 0x7F) + 64
    netid := pyAnd w5 0x00FF + 64
    gpsInfo := pyOr (pyAnd w7 0x7FFF) (pyShl (pyAnd w1 0x2000) 2)
    epoch := timestamp2epoch year month day hour minute second }

/-- The 6-bit version tag extracted from word 0:
`self.version = (self.words[0]>>7) & 0x3f`. -/
def statusVersion (b : List Nat) : Int :=
  pyAnd (pyShr ((words9 b).getD 0 0) 7) 0x3f

/-- The word list after `__init__`'s truncation: versions below 10 keep only
the first six words (`self.words = self.words[:6]`). -/
def statusWords (b : List Nat) : List Int :=
  if statusVersion b < 10 then (words9 b).take 6 else words9 b

/-- `StatusPacket.__init__` followed by `decode` and `calc_epoch`:
unpack nine words (a `struct.error` if the read delivered fewer than 18
bytes), extract the 6-bit version from word 0, truncate to six words for
versions below 10, require every remaining word to be negative
(`malformedRecord` otherwise), and dispatch on the version; versions outside
10-13 raise "Unknown raw data version" (`unsupportedVersion`).  `calc_epoch`
is folded into the decoders via `timestamp2epoch`. -/
def statusInit (b : List Nat) : Except DecodeErr StatusPacket :=
  if b.length ≠ 18 then .error .badLength
  else
    let version := statusVersion b
    let ws := statusWords b
    if ¬ ws.all (fun v => v < 0) then .error .malformedRecord
    else if version = 10 ∨ version = 11 then .ok (decode_1011 ws version)
    else if version = 12 ∨ version = 13 then .ok (decode_1213 ws version)
    else .error .unsupportedVersion

/-- Python's `int(x)` on a float: truncation toward zero. -/
def pyTrunc (q : ℚ) : Int :=
  if 0 ≤ q then ⌊q⌋ else ⌈q⌉

/-- The three signed words `struct.unpack('<3h', inputString)` yields from a
6-byte data record. -/
def words3 (b : List Nat) : List Int :=
  (List.range 3).map fun k => toInt16 (b.getD (2 * k) 0) (b.getD (2 * k + 1) 0)

/-- A decoded `DataPacket`.  `decode` only assigns the payload attributes for
some versions; `none` models a Python attribute that was never set (reading
it later raises `AttributeError`). -/
structure DataPacket where
  version : Int
  phaseDiff : Int
  aboveThresh : Option Int
  ticks : Option Int
  window : Option Int
  maxData : Option Int
  nano : Option Int
  power : Option ℚ
deriving DecidableEq, Repr, Inhabited

/-- `DataPacket.decode_12`: the 80-microsecond layout used for versions 12
and 10.  Python computes `samplePeriod = 1e9/(25000000 + phaseDiff)` as a
float and truncates `ticks * samplePeriod` with `int(...)`; the float
arithmetic is modelled as exact rational arithmetic.  (The division is total
here, with denominator zero unreachable: a status-decoded `phaseDiff` is at
most 32767 in magnitude.) -/
def dataDecode12 (p : DataPacket) (ws : List Int) : DataPacket :=
  let w0 := ws.getD 0 0
  let w1 := ws.getD 1 0
  let w2 := ws.getD 2 0
  let samplePeriod : ℚ := 1e9 / (25000000 + (p.phaseDiff : ℚ))
  let windowLength : Int := 80000
  let ticks := pyAnd w0 0x07FF
  let window := pyAnd w1 0x3FFF
  let maxData := pyAnd w2 0x00FF
  { p with
    aboveThresh := some (pyOr (pyShr w0 11) (pyShr (pyAnd w2 0xFF00) 4))
    ticks := some ticks
    window := some window
    maxData := some maxData
    nano := some (window * windowLength + pyTrunc ((ticks : ℚ) * samplePeriod))
    power := some (0.488 * (maxData : ℚ) - 111.0) }

/-- `DataPacket.__init__`: unpack three words (a `struct.error` if fewer than
6 bytes were read), require the sign pattern (non-negative, negative,
non-negative) — `malformedRecord` otherwise — then `decode`, whose dispatch
`if self.version == 12 or self.version == 10: self.decode_12()` assigns the
payload attributes only for versions 12 and 10 and silently does nothing for
every other version. -/
def dataPacketInit (b : List Nat) (version phaseDiff : Int) :
    Except DecodeErr DataPacket :=
  if b.length ≠ 6 then .error .badLength
  else
    let ws := words3 b
    let w0 := ws.getD 0 0
    let w1 := ws.getD 1 0
    let w2 := ws.getD 2 0
    if ¬ (¬ w0 < 0 ∧ w1 < 0 ∧ ¬ w2 < 0) then .error .malformedRecord
    else
      let p : DataPacket :=
        { version := version, phaseDiff := phaseDiff,
          aboveThresh := none, ticks := none, window := none,
          maxData := none, nano := none, power := none }
      if version = 12 ∨ version = 10 then .ok (dataDecode12 p ws)
      else .ok p

/-! ### C6: the sign-pattern checks of both record constructors -/

/-- C6.  Status records: whenever any decoded word of an 18-byte input is
non-negative (all nine words for the 9-word formats, only the first six for
versions below 10 — `statusWords` performs exactly that truncation), decoding
fails with `malformedRecord`.  Data records: decoding a 6-byte input fails
with `malformedRecord` exactly when the sign pattern of its three words is
not (non-negative, negative, non-negative). -/
theorem c6_sign_pattern_checks :
    (∀ b : List Nat, b.length = 18 →
      ¬ (statusWords b).all (fun v => v < 0) →
      statusInit b = .error .malformedRecord) ∧
    (∀ (b : List Nat) (version phaseDiff : Int), b.length = 6 →
      (dataPacketInit b version phaseDiff = .error .malformedRecord ↔
        ¬ (¬ (words3 b).getD 0 0 < 0 ∧ (words3 b).getD 1 0 < 0 ∧
            ¬ (words3 b).getD 2 0 < 0))) := by
  constructor
  · intro b hlen hsign
    simp [statusInit, hlen, hsign]
  · intro b version phaseDiff hlen
    unfold dataPacketInit
    rw [if_neg (by simp [hlen])]
    dsimp only
    split_ifs with hsign hv
    · exact iff_of_false (by simp) (not_not_intro hsign)
    · exact iff_of_false (by simp) (not_not_intro hsign)
    · exact iff_of_true rfl hsign

/-- Witness for C6 at concrete inputs: an all-zero 18-byte string (word 0
non-negative, decoding fails malformed) and an all-zero 6-byte string (sign
pattern (non-negative, non-negative, non-negative), decoding fails
malformed). -/
theorem c6_sign_pattern_checks_witness :
    ((List.replicate 18 0).length = 18 ∧
      ¬ (statusWords (List.replicate 18 0)).all (fun v => v < 0) ∧
      statusInit (List.replicate 18 0) = .error .malformedRecord) ∧
    ((List.replicate 6 0).length = 6 ∧
      (dataPacketInit (List.replicate 6 0) 12 0 = .error .malformedRecord ↔
        ¬ (¬ (words3 (List.replicate 6 0)).getD 0 0 < 0 ∧
            (words3 (List.replicate 6 0)).getD 1 0 < 0 ∧
            ¬ (words3 (List.replicate 6 0)).getD 2 0 < 0))) :=
  ⟨⟨by decide, by decide,
      c6_sign_pattern_checks.1 (List.replicate 18 0) (by decide) (by decide)⟩,
    ⟨by decide, c6_sign_pattern_checks.2 (List.replicate 6 0) 12 0 (by decide)⟩⟩

/-! ### C7: version dispatch of status decoding -/

/-- A valid oldest-family status record: version tag 8 in word 0, the first
six words all negative (words 6-8 are irrelevant after truncation and are
left non-negative here to stress that only six words are checked). -/
def c7OldBytes : List Nat :=
  [0x00, 0x84, 0x00, 0x80, 0x00, 0x80, 0x00, 0x80, 0x00, 0x80, 0x00, 0x80,
   0, 0, 0, 0, 0, 0]

/-- C7 counterexample.  Decoding a valid oldest-family status record (version
tag 8, six negative words) does not use the 6-word layout: `decode` knows
only versions 10-13, so it fails with `unsupportedVersion` ("Unknown raw data
version"); `decode_89` is never reached. -/
theorem c7_oldest_family_counterexample :
    statusVersion c7OldBytes = 8 ∧
      statusInit c7OldBytes = .error .unsupportedVersion := by
  constructor <;> decide

/-- C7 amended.  The decode table covers exactly the middle family (versions
10 and 11, no network id) and the current family (versions 12 and 13); for
every 18-byte input, decoding fails with `unsupportedVersion` precisely when
the truncated word list passes the sign check and the version tag lies
outside 10-13 — in particular every oldest-family record (version tag below
10) that passes its 6-word sign check fails with `unsupportedVersion`
instead of being decoded by the (dead) 6-word layout. -/
theorem c7_amended_version_dispatch (b : List Nat) (hlen : b.length = 18) :
    statusInit b = .error .unsupportedVersion ↔
      ((statusWords b).all (fun v => v < 0) ∧
        ¬ (statusVersion b = 10 ∨ statusVersion b = 11 ∨
            statusVersion b = 12 ∨ statusVersion b = 13)) := by
  unfold statusInit
  rw [if_neg (by simp [hlen])]
  dsimp only
  split_ifs with hsign h1011 h1213
  · exact iff_of_false (by simp) fun h => h.2 (by tauto)
  · exact iff_of_false (by simp) fun h => h.2 (by tauto)
  · exact iff_of_true rfl ⟨hsign, by tauto⟩
  · exact iff_of_false (by simp) fun h => hsign h.1

/-- Witness for C7's amended theorem: an 18-byte record with version tag 9
and all words negative, on which decoding indeed reports
`unsupportedVersion`. -/
theorem c7_amended_version_dispatch_witness :
    ([0x80, 0x84, 0x00, 0x80, 0x00, 0x80, 0x00, 0x80, 0x00, 0x80, 0x00, 0x80,
      0x00, 0x80, 0x00, 0x80, 0x00, 0x80] : List Nat).length = 18 ∧
      (statusInit [0x80, 0x84, 0x00, 0x80, 0x00, 0x80, 0x00, 0x80, 0x00, 0x80,
          0x00, 0x80, 0x00, 0x80, 0x00, 0x80, 0x00, 0x80] =
          .error .unsupportedVersion ↔
        ((statusWords [0x80, 0x84, 0x00, 0x80, 0x00, 0x80, 0x00, 0x80,
            0x00, 0x80, 0x00, 0x80, 0x00, 0x80, 0x00, 0x80, 0x00, 0x80]).all
            (fun v => v < 0) ∧
          ¬ (statusVersion [0x80, 0x84, 0x00, 0x80, 0x00, 0x80, 0x00, 0x80,
              0x00, 0x80, 0x00, 0x80, 0x00, 0x80, 0x00, 0x80, 0x00, 0x80] = 10 ∨
             statusVersion [0x80, 0x84, 0x00, 0x80, 0x00, 0x80, 0x00, 0x80,
              0x00, 0x80, 0x00, 0x80, 0x00, 0x80, 0x00, 0x80, 0x00, 0x80] = 11 ∨
             statusVersion [0x80, 0x84, 0x00, 0x80, 0x00, 0x80, 0x00, 0x80,
              0x00, 0x80, 0x00, 0x80, 0x00, 0x80, 0x00, 0x80, 0x00, 0x80] = 12 ∨
             statusVersion [0x80, 0x84, 0x00, 0x80, 0x00, 0x80, 0x00, 0x80,
              0x00, 0x80, 0x00, 0x80, 0x00, 0x80, 0x00, 0x80, 0x00, 0x80] = 13))) :=
  ⟨by decide, c7_amended_version_dispatch _ (by decide)⟩

/-! ### C10: the data-record timestamp and power formulas -/

theorem pyAnd_nonneg (x : Int) (m : Nat) : 0 ≤ pyAnd x m :=
  Int.natCast_nonneg _

theorem pyTrunc_of_nonneg (q : ℚ) (h : 0 ≤ q) : pyTrunc q = ⌊q⌋ :=
  if_pos h

/-- C10 counterexample.  A valid data record decoded with version 13 (the
claim's "current family") is not decoded at all: `decode` dispatches only
versions 12 and 10, so `nano` and `power` are never assigned (reading them
in Python raises `AttributeError`). -/
theorem c10_version13_counterexample :
    Except.map (fun p => (p.nano, p.power))
        (dataPacketInit [5, 0, 2, 0x80, 3, 0] 13 0) = .ok (none, none) := by
  decide

/-- C10 amended.  For every valid data record, decoding with version 12 or
version 10 (the versions `decode` actually dispatches) sets
`nano = window * 80000 + floor(ticks * (1e9 / (25000000 + phaseDiff)))` and
`power = 0.488 * maxData - 111.0`, with `window`, `ticks` and `maxData` the
masked fields of the three words; for any other version — including 13 —
`nano` and `power` are left unset. -/
theorem c10_amended_data_formulas (b : List Nat) (version phaseDiff : Int)
    (hlen : b.length = 6)
    (hsign : ¬ (words3 b).getD 0 0 < 0 ∧ (words3 b).getD 1 0 < 0 ∧
      ¬ (words3 b).getD 2 0 < 0)
    (hpd : -25000000 < phaseDiff) :
    (version = 12 ∨ version = 10 →
      Except.map (fun p => (p.nano, p.power)) (dataPacketInit b version phaseDiff) =
        .ok (some (pyAnd ((words3 b).getD 1 0) 0x3FFF * 80000 +
              ⌊(pyAnd ((words3 b).getD 0 0) 0x07FF : ℚ) *
                (1e9 / (25000000 + (phaseDiff : ℚ)))⌋),
            some (0.488 * (pyAnd ((words3 b).getD 2 0) 0x00FF : ℚ) - 111.0))) ∧
    (¬ (version = 12 ∨ version = 10) →
      Except.map (fun p => (p.nano, p.power)) (dataPacketInit b version phaseDiff) =
        .ok (none, none)) := by
  have hq : (0 : ℚ) ≤ (pyAnd ((words3 b).getD 0 0) 0x07FF : ℚ) *
      (1e9 / (25000000 + (phaseDiff : ℚ))) := by
    have hden : (0 : ℚ) < 25000000 + (phaseDiff : ℚ) := by
      have h2 : (0 : Int) < 25000000 + phaseDiff := by omega
      exact_mod_cast h2
    have hticks : (0 : ℚ) ≤ (pyAnd ((words3 b).getD 0 0) 0x07FF : ℚ) := by
      exact_mod_cast pyAnd_nonneg ((words3 b).getD 0 0) 0x07FF
    have : (0 : ℚ) ≤ (1e9 : ℚ) / (25000000 + (phaseDiff : ℚ)) :=
      div_nonneg (by norm_num) (le_of_lt hden)
    exact mul_nonneg hticks this
  constructor
  · intro hv
    unfold dataPacketInit
    dsimp only
    rw [if_neg (by simp [hlen]), if_neg (not_not_intro hsign), if_pos hv]
    unfold dataDecode12
    dsimp only [Except.map]
    rw [pyTrunc_of_nonneg _ hq]
  · intro hv
    unfold dataPacketInit
    dsimp only
    rw [if_neg (by simp [hlen]), if_neg (not_not_intro hsign), if_neg hv]
    rfl

/-- Witness for C10's amended theorem at a concrete valid record with
version 12 and phase difference 100. -/
theorem c10_amended_data_formulas_witness :
    (([5, 0, 2, 0x80, 3, 0] : List Nat).length = 6 ∧
      (¬ (words3 [5, 0, 2, 0x80, 3, 0]).getD 0 0 < 0 ∧
        (words3 [5, 0, 2, 0x80, 3, 0]).getD 1 0 < 0 ∧
        ¬ (words3 [5, 0, 2, 0x80, 3, 0]).getD 2 0 < 0) ∧
      (-25000000 : Int) < 100) ∧
    ((12 : Int) = 12 ∨ (12 : Int) = 10 →
      Except.map (fun p => (p.nano, p.power)) (dataPacketInit [5, 0, 2, 0x80, 3, 0] 12 100) =
        .ok (some (pyAnd ((words3 [5, 0, 2, 0x80, 3, 0]).getD 1 0) 0x3FFF * 80000 +
              ⌊(pyAnd ((words3 [5, 0, 2, 0x80, 3, 0]).getD 0 0) 0x07FF : ℚ) *
                (1e9 / (25000000 + ((100 : Int) : ℚ)))⌋),
            some (0.488 * (pyAnd ((words3 [5, 0, 2, 0x80, 3, 0]).getD 2 0) 0x00FF : ℚ) - 111.0))) ∧
    (¬ ((12 : Int) = 12 ∨ (12 : Int) = 10) →
      Except.map (fun p => (p.nano, p.power)) (dataPacketInit [5, 0, 2, 0x80, 3, 0] 12 100) =
        .ok (none, none)) :=
  ⟨⟨by decide, by decide, by decide⟩,
    (c10_amended_data_formulas [5, 0, 2, 0x80, 3, 0] 12 100 (by decide)
      (by decide) (by decide)).1,
    (c10_amended_data_formulas [5, 0, 2, 0x80, 3, 0] 12 100 (by decide)
      (by decide) (by decide)).2⟩

/-! ## Part 3: the boundary scans of `RawLMAFile.find_status` (raw_io.py)

The open file is a byte string `f : List Nat`; `seek`/`read` become
`readBytes`, which, like Python's `read`, returns fewer bytes near the end of
the file.  `find_status` decodes the bootstrap status record at offset 0,
fixes the file's `id`/`netid` and the status size (18 bytes for versions at
least 10), and dispatches to `_search_forwards` (decimated files) or
`_search_backwards` (fixed-rate files).
-/

/-- Reading `n` bytes at absolute position `pos`. -/
def readBytes (f : List Nat) (pos n : Nat) : List Nat :=
  (f.drop pos).take n

/-- Errors that escape a scan: a decode failure of `StatusPacket` outside any
`try` block, or the "statusPacket id not consistent in file" exception. -/
inductive ScanErr where
  | decodeFail (e : DecodeErr)
  | inconsistentStream
deriving DecidableEq, Repr

theorem pos18 : 0 < 18 := by decide

/-- The body of `_search_forwards`' `try` block at one candidate offset:
construct a `StatusPacket` from the next `statusSize` bytes and raise if its
`id` or `netid` differs from the file's.  Any exception — including the
deliberately raised inconsistency — lands in the bare `except:` and yields
`none` ("not a boundary here"). -/
def tryStatus (f : List Nat) (ss : Nat) (id0 netid0 : Int) (loc : Nat) :
    Option StatusPacket :=
  match statusInit (readBytes f loc ss) with
  | .error _ => none
  | .ok sp => if sp.id ≠ id0 ∨ sp.netid ≠ netid0 then none else some sp

/-- The loop of `_search_forwards`: starting at `fileLocation = statusSize`,
try a status decode at each candidate offset; on success record the location
and the packet and advance by `statusSize`, on any exception advance by 3. -/
def fwdLoop (f : List Nat) (ss : Nat) (hss : 0 < ss) (id0 netid0 : Int)
    (loc : Nat) (locs : List Nat) (pkts : List (Option StatusPacket)) :
    List Nat × List (Option StatusPacket) :=
  if _h : loc < f.length then
    match tryStatus f ss id0 netid0 loc with
    | some sp =>
      fwdLoop f ss hss id0 netid0 (loc + ss) (locs ++ [loc]) (pkts ++ [some sp])
    | none =>
      fwdLoop f ss hss id0 netid0 (loc + 3) locs pkts
  else
    (locs, pkts)
termination_by f.length - loc
decreasing_by all_goals omega

/-- `RawLMAFile._search_forwards`: the placeholder boundary `(0, None)` is
recorded first, then the loop runs from offset `statusSize`.  The scan never
raises: every failure is caught by its own bare `except:`. -/
def searchForwards (f : List Nat) (ss : Nat) (hss : 0 < ss)
    (id0 netid0 : Int) : List Nat × List (Option StatusPacket) :=
  fwdLoop f ss hss id0 netid0 ss [0] [none]

/-- `triggerCount` of any successfully decoded status packet is the value of
a 14-bit mask, hence non-negative (used to justify the natural-number stride
arithmetic in the backward scan below). -/
theorem statusInit_triggerCount_nonneg (b : List Nat) (sp : StatusPacket)
    (h : statusInit b = .ok sp) : 0 ≤ sp.triggerCount := by
  unfold statusInit at h
  dsimp only at h
  split_ifs at h
  · have hsp : sp = decode_1011 (statusWords b) (statusVersion b) :=
      (Except.ok.injEq _ _ ▸ h).symm
    rw [hsp]
    dsimp only [decode_1011]
    exact pyAnd_nonneg _ _
  · have hsp : sp = decode_1213 (statusWords b) (statusVersion b) :=
      (Except.ok.injEq _ _ ▸ h).symm
    rw [hsp]
    dsimp only [decode_1213]
    exact pyAnd_nonneg _ _

/-- The loop of `_search_backwards`, tracked by the file cursor `tell`
(initially the file length).  Each iteration seeks back `statusSize` bytes to
`loc`, records `loc`, reads and decodes the status packet there (a decode
failure propagates — there is no `try` here), raises the inconsistency
exception on an `id`/`netid` mismatch, and then strides back
`triggerCount * 6 + statusSize` bytes; if the stride would pass the start of
the file the loop warns and breaks (the `Bool` in the result records that
this structural anomaly was hit). -/
def backLoop (f : List Nat) (ss : Nat) (hss : 0 < ss) (id0 netid0 : Int)
    (tell : Nat) (locs : List Nat) (pkts : List (Option StatusPacket)) :
    Except ScanErr (List Nat × List (Option StatusPacket) × Bool) :=
  if _h : ss < tell then
    let loc := tell - ss
    match statusInit (readBytes f loc ss) with
    | .error e => .error (.decodeFail e)
    | .ok sp =>
      if sp.id ≠ id0 ∨ sp.netid ≠ netid0 then .error .inconsistentStream
      else if (tell : Int) > sp.triggerCount * 6 + (ss : Int) then
        backLoop f ss hss id0 netid0 (loc - (sp.triggerCount * 6).toNat)
          (locs ++ [loc]) (pkts ++ [some sp])
      else
        .ok (locs ++ [loc], pkts ++ [some sp], true)
  else
    .ok (locs, pkts, false)
termination_by tell
decreasing_by omega

/-- `RawLMAFile._search_backwards`: run the backward loop from the end of the
file, then append the placeholder boundary `(0, None)` and reverse both
lists. -/
def searchBackwards (f : List Nat) (ss : Nat) (hss : 0 < ss)
    (id0 netid0 : Int) :
    Except ScanErr (List Nat × List (Option StatusPacket) × Bool) :=
  (backLoop f ss hss id0 netid0 f.length [] []).map
    fun r => ((r.1 ++ [0]).reverse, (r.2.1 ++ [none]).reverse, r.2.2)

/-! ### Step lemmas for the two scan loops -/

theorem fwdLoop_some (f : List Nat) (ss : Nat) (hss : 0 < ss)
    (id0 netid0 : Int) (loc : Nat) (locs : List Nat)
    (pkts : List (Option StatusPacket)) (sp : StatusPacket)
    (hlt : loc < f.length) (hsp : tryStatus f ss id0 netid0 loc = some sp) :
    fwdLoop f ss hss id0 netid0 loc locs pkts =
      fwdLoop f ss hss id0 netid0 (loc + ss) (locs ++ [loc])
        (pkts ++ [some sp]) := by
  conv_lhs => rw [fwdLoop]
  rw [dif_pos hlt, hsp]

theorem fwdLoop_none (f : List Nat) (ss : Nat) (hss : 0 < ss)
    (id0 netid0 : Int) (loc : Nat) (locs : List Nat)
    (pkts : List (Option StatusPacket))
    (hlt : loc < f.length) (hn : tryStatus f ss id0 netid0 loc = none) :
    fwdLoop f ss hss id0 netid0 loc locs pkts =
      fwdLoop f ss hss id0 netid0 (loc + 3) locs pkts := by
  conv_lhs => rw [fwdLoop]
  rw [dif_pos hlt, hn]

theorem fwdLoop_stop (f : List Nat) (ss : Nat) (hss : 0 < ss)
    (id0 netid0 : Int) (loc : Nat) (locs : List Nat)
    (pkts : List (Option StatusPacket)) (hge : ¬ loc < f.length) :
    fwdLoop f ss hss id0 netid0 loc locs pkts = (locs, pkts) := by
  rw [fwdLoop, dif_neg hge]

theorem backLoop_stop (f : List Nat) (ss : Nat) (hss : 0 < ss)
    (id0 netid0 : Int) (tell : Nat) (locs : List Nat)
    (pkts : List (Option StatusPacket)) (hle : ¬ ss < tell) :
    backLoop f ss hss id0 netid0 tell locs pkts = .ok (locs, pkts, false) := by
  rw [backLoop, dif_neg hle]

theorem backLoop_decodeFail (f : List Nat) (ss : Nat) (hss : 0 < ss)
    (id0 netid0 : Int) (tell : Nat) (locs : List Nat)
    (pkts : List (Option StatusPacket)) (e : DecodeErr)
    (hgt : ss < tell)
    (hsp : statusInit (readBytes f (tell - ss) ss) = .error e) :
    backLoop f ss hss id0 netid0 tell locs pkts = .error (.decodeFail e) := by
  conv_lhs => rw [backLoop]
  rw [dif_pos hgt]
  dsimp only
  rw [hsp]

theorem backLoop_mismatch (f : List Nat) (ss : Nat) (hss : 0 < ss)
    (id0 netid0 : Int) (tell : Nat) (locs : List Nat)
    (pkts : List (Option StatusPacket)) (sp : StatusPacket)
    (hgt : ss < tell)
    (hsp : statusInit (readBytes f (tell - ss) ss) = .ok sp)
    (hmm : sp.id ≠ id0 ∨ sp.netid ≠ netid0) :
    backLoop f ss hss id0 netid0 tell locs pkts = .error .inconsistentStream := by
  conv_lhs => rw [backLoop]
  rw [dif_pos hgt]
  dsimp only
  rw [hsp]
  dsimp only
  rw [if_pos hmm]

theorem backLoop_step (f : List Nat) (ss : Nat) (hss : 0 < ss)
    (id0 netid0 : Int) (tell : Nat) (locs : List Nat)
    (pkts : List (Option StatusPacket)) (sp : StatusPacket)
    (hgt : ss < tell)
    (hsp : statusInit (readBytes f (tell - ss) ss) = .ok sp)
    (hmm : ¬ (sp.id ≠ id0 ∨ sp.netid ≠ netid0))
    (hstep : (tell : Int) > sp.triggerCount * 6 + (ss : Int)) :
    backLoop f ss hss id0 netid0 tell locs pkts =
      backLoop f ss hss id0 netid0 ((tell - ss) - (sp.triggerCount * 6).toNat)
        (locs ++ [tell - ss]) (pkts ++ [some sp]) := by
  conv_lhs => rw [backLoop]
  rw [dif_pos hgt]
  dsimp only
  rw [hsp]
  dsimp only
  rw [if_neg hmm, if_pos hstep]

theorem backLoop_break (f : List Nat) (ss : Nat) (hss : 0 < ss)
    (id0 netid0 : Int) (tell : Nat) (locs : List Nat)
    (pkts : List (Option StatusPacket)) (sp : StatusPacket)
    (hgt : ss < tell)
    (hsp : statusInit (readBytes f (tell - ss) ss) = .ok sp)
    (hmm : ¬ (sp.id ≠ id0 ∨ sp.netid ≠ netid0))
    (hstep : ¬ (tell : Int) > sp.triggerCount * 6 + (ss : Int)) :
    backLoop f ss hss id0 netid0 tell locs pkts =
      .ok (locs ++ [tell - ss], pkts ++ [some sp], true) := by
  conv_lhs => rw [backLoop]
  rw [dif_pos hgt]
  dsimp only
  rw [hsp]
  dsimp only
  rw [if_neg hmm, if_neg hstep]

/-! ### C5: id/netid mismatch handling in the two scans -/

/-- The decoded status packet of a byte string (the packet of the bootstrap
record fixes the file's `id`/`netid` in `find_status`). -/
def statusGet (b : List Nat) : StatusPacket :=
  match statusInit b with
  | .ok sp => sp
  | .error _ => default

/-- A version-12 status record: year 2025, second 5, minute 7, hour 1,
day 2, month 3, trigger count 0, sensor id `A`, network id `B`,
phase difference 100. -/
def statusBytesA : List Nat :=
  [0x19, 0x86, 0x00, 0x80, 0x47, 0x81, 0x23, 0x82, 0x00, 0x80, 0x02, 0x81,
   0x64, 0x80, 0x00, 0x80, 0x00, 0x80]

/-- The same record with sensor id `B` instead of `A`. -/
def statusBytesB : List Nat :=
  [0x19, 0x86, 0x00, 0x80, 0x47, 0x81, 0x23, 0x82, 0x00, 0x80, 0x02, 0x82,
   0x64, 0x80, 0x00, 0x80, 0x00, 0x80]

/-- A raw file whose bootstrap status record carries sensor id `A` and whose
next status record carries sensor id `B`: an inconsistent stream. -/
def c5File : List Nat := statusBytesA ++ statusBytesB

/-- C5.  On `c5File` the two strategies disagree about the id mismatch: the
backward scan raises the "statusPacket id not consistent in file" exception
and propagates it (`inconsistentStream`), but the forward scan raises it
inside its own `try` block, where the bare `except:` catches it, treats the
mismatched record as "not a boundary here" and steps on by 3 bytes — the scan
completes normally, silently skipping the inconsistent record.  So the
mismatch is a propagated hard failure only for the backward strategy, not for
both. -/
theorem c5_forward_swallows_inconsistency :
    (statusGet statusBytesA).id = 65 ∧ (statusGet statusBytesB).id = 66 ∧
    (statusGet statusBytesA).netid = 66 ∧ (statusGet statusBytesB).netid = 66 ∧
    searchForwards c5File 18 pos18 (statusGet statusBytesA).id
        (statusGet statusBytesA).netid = ([0], [none]) ∧
    searchBackwards c5File 18 pos18 (statusGet statusBytesA).id
        (statusGet statusBytesA).netid = .error .inconsistentStream := by
  refine ⟨by decide, by decide, by decide, by decide, ?_, ?_⟩
  · have s1 : searchForwards c5File 18 pos18 (statusGet statusBytesA).id
        (statusGet statusBytesA).netid =
        fwdLoop c5File 18 pos18 (statusGet statusBytesA).id
          (statusGet statusBytesA).netid 18 [0] [none] := rfl
    have s2 := fwdLoop_none c5File 18 pos18 (statusGet statusBytesA).id
      (statusGet statusBytesA).netid 18 [0] [none] (by decide) (by decide)
    have s3 := fwdLoop_none c5File 18 pos18 (statusGet statusBytesA).id
      (statusGet statusBytesA).netid 21 [0] [none] (by decide) (by decide)
    have s4 := fwdLoop_none c5File 18 pos18 (statusGet statusBytesA).id
      (statusGet statusBytesA).netid 24 [0] [none] (by decide) (by decide)
    have s5 := fwdLoop_none c5File 18 pos18 (statusGet statusBytesA).id
      (statusGet statusBytesA).netid 27 [0] [none] (by decide) (by decide)
    have s6 := fwdLoop_none c5File 18 pos18 (statusGet statusBytesA).id
      (statusGet statusBytesA).netid 30 [0] [none] (by decide) (by decide)
    have s7 := fwdLoop_none c5File 18 pos18 (statusGet statusBytesA).id
      (statusGet statusBytesA).netid 33 [0] [none] (by decide) (by decide)
    have s8 := fwdLoop_stop c5File 18 pos18 (statusGet statusBytesA).id
      (statusGet statusBytesA).netid 36 [0] [none] (by decide)
    exact s1.trans (s2.trans (s3.trans (s4.trans (s5.trans
      (s6.trans (s7.trans s8))))))
  · have b1 := backLoop_mismatch c5File 18 pos18 (statusGet statusBytesA).id
      (statusGet statusBytesA).netid 36 [] [] (statusGet statusBytesB)
      (by decide) (by decide) (by decide)
    have hlen : c5File.length = 36 := by decide
    unfold searchBackwards
    rw [hlen, b1]
    rfl

/-! ### C4: forward and backward scans on well-formed fixed-rate files -/

/-- One segment of a fixed-rate raw file: the data records of one second
followed by the status record that closes them. -/
structure RawSeg where
  data : List Nat
  status : List Nat
deriving DecidableEq, Repr

/-- The bytes of a list of segments. -/
def bodyBytes (segs : List RawSeg) : List Nat :=
  (segs.map fun g => g.data ++ g.status).flatten

/-- A fixed-rate raw file: the bootstrap status record, then the segments. -/
def fileBytes (s0 : List Nat) (segs : List RawSeg) : List Nat :=
  s0 ++ bodyBytes segs

/-- The true status-record offsets of the segments laid out from `pos`
(each status record is 18 bytes in the families the scans support). -/
def trueLocs : Nat → List RawSeg → List Nat
  | _, [] => []
  | pos, g :: gs => (pos + g.data.length) :: trueLocs (pos + g.data.length + 18) gs

theorem bodyBytes_cons (g : RawSeg) (gs : List RawSeg) :
    bodyBytes (g :: gs) = g.data ++ (g.status ++ bodyBytes gs) := by
  simp [bodyBytes]

theorem bodyBytes_append (xs ys : List RawSeg) :
    bodyBytes (xs ++ ys) = bodyBytes xs ++ bodyBytes ys := by
  simp [bodyBytes]

theorem trueLocs_lb (segs : List RawSeg) :
    ∀ (pos : Nat), ∀ q ∈ trueLocs pos segs, pos ≤ q := by
  induction segs with
  | nil => intro pos q hq; cases hq
  | cons g gs ih =>
    intro pos q hq
    rcases List.mem_cons.mp hq with hq | hq
    · omega
    · have := ih (pos + g.data.length + 18) q hq
      omega

theorem trueLocs_append (xs ys : List RawSeg) (h18 : ∀ g ∈ xs, g.status.length = 18) :
    ∀ pos, trueLocs pos (xs ++ ys) =
      trueLocs pos xs ++ trueLocs (pos + (bodyBytes xs).length) ys := by
  induction xs with
  | nil => intro pos; simp [trueLocs, bodyBytes]
  | cons g gs ih =>
    intro pos
    have hg : g.status.length = 18 := h18 g (by simp)
    have hgs : ∀ g' ∈ gs, g'.status.length = 18 := fun g' hg' => h18 g' (by simp [hg'])
    have harg : pos + g.data.length + 18 + (bodyBytes gs).length =
        pos + (bodyBytes (g :: gs)).length := by
      rw [bodyBytes_cons]
      simp only [List.length_append, hg]
      omega
    calc trueLocs pos ((g :: gs) ++ ys)
        = (pos + g.data.length) :: trueLocs (pos + g.data.length + 18) (gs ++ ys) := rfl
      _ = (pos + g.data.length) :: (trueLocs (pos + g.data.length + 18) gs ++
            trueLocs (pos + g.data.length + 18 + (bodyBytes gs).length) ys) := by
            rw [ih hgs]
      _ = trueLocs pos (g :: gs) ++ trueLocs (pos + (bodyBytes (g :: gs)).length) ys := by
            rw [harg]
            rfl

/-- Stepping through a rejected region: if every offset the forward loop will
visit inside the next `m` bytes (a multiple of 3) is rejected, the loop
arrives at `pos + m` with its accumulators unchanged. -/
theorem fwdLoop_skip (f : List Nat) (id0 netid0 : Int)
    (locs : List Nat) (pkts : List (Option StatusPacket)) :
    ∀ m, 3 ∣ m → ∀ pos, pos + m ≤ f.length →
      (∀ j, j < m → 3 ∣ j → tryStatus f 18 id0 netid0 (pos + j) = none) →
      fwdLoop f 18 pos18 id0 netid0 pos locs pkts =
        fwdLoop f 18 pos18 id0 netid0 (pos + m) locs pkts := by
  intro m
  induction m using Nat.strong_induction_on with
  | _ m ih =>
    intro hdvd pos hle hr
    rcases Nat.eq_zero_or_pos m with hm | hm
    · subst hm; rfl
    · have hm3 : 3 ≤ m := Nat.le_of_dvd hm hdvd
      have h1 : fwdLoop f 18 pos18 id0 netid0 pos locs pkts =
          fwdLoop f 18 pos18 id0 netid0 (pos + 3) locs pkts :=
        fwdLoop_none f 18 pos18 id0 netid0 pos locs pkts (by omega)
          (by simpa using hr 0 (by omega) ⟨0, by omega⟩)
      have h2 := ih (m - 3) (by omega) (by omega : 3 ∣ m - 3) (pos + 3)
        (by omega)
        (fun j hj hj3 => by
          have := hr (j + 3) (by omega) (by omega)
          simpa [Nat.add_assoc, Nat.add_comm 3 j] using this)
      rw [h1, h2]
      congr 1
      omega

/-- The forward scan over a well-formed segment region: started at the first
data byte of the region, it records exactly the true status locations (and
their packets) and nothing else. -/
theorem fwdLoop_segments (f : List Nat) (id0 netid0 : Int) :
    ∀ (segs : List RawSeg) (pos : Nat) (locs : List Nat)
      (pkts : List (Option StatusPacket)),
      pos + (bodyBytes segs).length = f.length →
      f.drop pos = bodyBytes segs →
      (∀ g ∈ segs, g.status.length = 18 ∧
        ∃ sp, statusInit g.status = .ok sp ∧ sp.id = id0 ∧ sp.netid = netid0 ∧
          g.data.length = sp.triggerCount.toNat * 6) →
      (∀ p, pos ≤ p → p < f.length → p ∉ trueLocs pos segs →
        tryStatus f 18 id0 netid0 p = none) →
      fwdLoop f 18 pos18 id0 netid0 pos locs pkts =
        (locs ++ trueLocs pos segs,
          pkts ++ segs.map fun g => some (statusGet g.status)) := by
  intro segs
  induction segs with
  | nil =>
    intro pos locs pkts h1 _h2 _h3 _h4
    have hstop : ¬ pos < f.length := by
      simp only [bodyBytes, List.map_nil, List.flatten_nil, List.length_nil] at h1
      omega
    rw [fwdLoop_stop f 18 pos18 id0 netid0 pos locs pkts hstop]
    simp [trueLocs]
  | cons g gs ih =>
    intro pos locs pkts h1 h2 h3 h4
    obtain ⟨hg18, sp, hsp, hid, hnid, hdlen⟩ := h3 g (by simp)
    have hlen_cons : (bodyBytes (g :: gs)).length =
        g.data.length + 18 + (bodyBytes gs).length := by
      rw [bodyBytes_cons]
      simp only [List.length_append, hg18]
      omega
    have hskip := fwdLoop_skip f id0 netid0 locs pkts g.data.length
      ⟨sp.triggerCount.toNat * 2, by omega⟩ pos (by omega)
      (fun j hj _hj3 => by
        refine h4 (pos + j) (by omega) (by omega) ?_
        simp only [trueLocs]
        intro hmem
        rcases List.mem_cons.mp hmem with hq | hq
        · omega
        · have := trueLocs_lb gs (pos + g.data.length + 18) _ hq
          omega)
    have hbytes : readBytes f (pos + g.data.length) 18 = g.status := by
      unfold readBytes
      have hdd : f.drop (pos + g.data.length) = (f.drop pos).drop g.data.length := by
        rw [List.drop_drop]
      rw [hdd, h2, bodyBytes_cons, List.drop_left, ← hg18, List.take_left]
    have hacc : tryStatus f 18 id0 netid0 (pos + g.data.length) = some sp := by
      unfold tryStatus
      rw [hbytes, hsp]
      simp [hid, hnid]
    have hstep := fwdLoop_some f 18 pos18 id0 netid0 (pos + g.data.length)
      locs pkts sp (by omega) hacc
    have hih := ih (pos + g.data.length + 18) (locs ++ [pos + g.data.length])
      (pkts ++ [some sp])
      (by omega)
      (by
        have hdd : f.drop (pos + g.data.length + 18) =
            (f.drop pos).drop (g.data.length + 18) := by
          rw [List.drop_drop]
          congr 1
          try omega
        rw [hdd, h2, bodyBytes_cons, ← List.append_assoc]
        have hl : (g.data ++ g.status).length = g.data.length + 18 := by
          simp [hg18]
        rw [← hl, List.drop_left])
      (fun g' hg' => h3 g' (by simp [hg']))
      (fun p hp hpl hpmem =>
        h4 p (by omega) hpl (by
          simp only [trueLocs]
          intro hmem
          rcases List.mem_cons.mp hmem with hq | hq
          · omega
          · exact hpmem hq))
    have hspget : statusGet g.status = sp := by
      unfold statusGet
      rw [hsp]
    rw [hskip, hstep, hih]
    simp only [trueLocs, List.map_cons, hspget, List.append_assoc,
      List.singleton_append, List.cons_append, List.nil_append]

/-- The backward scan over a well-formed segment region: started with the
cursor at the end of the region, it strides exactly from status record to
status record, collecting the true locations in reverse order, and leaves the
loop normally (no structural anomaly) at the end of the bootstrap record. -/
theorem backLoop_segments (f : List Nat) (id0 netid0 : Int) :
    ∀ (segs : List RawSeg) (rest : List Nat) (locs : List Nat)
      (pkts : List (Option StatusPacket)),
      f.drop 18 = bodyBytes segs ++ rest →
      (∀ g ∈ segs, g.status.length = 18 ∧
        ∃ sp, statusInit g.status = .ok sp ∧ sp.id = id0 ∧ sp.netid = netid0 ∧
          g.data.length = sp.triggerCount.toNat * 6) →
      backLoop f 18 pos18 id0 netid0 (18 + (bodyBytes segs).length) locs pkts =
        .ok (locs ++ (trueLocs 18 segs).reverse,
          pkts ++ (segs.map fun g => some (statusGet g.status)).reverse,
          false) := by
  intro segs
  induction segs using List.reverseRecOn with
  | nil =>
    intro rest locs pkts _h1 _h2
    rw [show 18 + (bodyBytes []).length = 18 by simp [bodyBytes]]
    rw [backLoop_stop f 18 pos18 id0 netid0 18 locs pkts (by omega)]
    simp [trueLocs]
  | append_singleton xs g ih =>
    intro rest locs pkts h1 h2
    obtain ⟨hg18, sp, hsp, hid, hnid, hdlen⟩ := h2 g (by simp)
    have hxs18 : ∀ g' ∈ xs, g'.status.length = 18 :=
      fun g' hg' => (h2 g' (by simp [hg'])).1
    have hlast : (bodyBytes [g]).length = g.data.length + 18 := by
      simp [bodyBytes, hg18]
    have hlen : (bodyBytes (xs ++ [g])).length =
        (bodyBytes xs).length + g.data.length + 18 := by
      rw [bodyBytes_append, List.length_append]
      omega
    have hbytes : readBytes f (18 + (bodyBytes xs).length + g.data.length) 18 =
        g.status := by
      unfold readBytes
      have hdd : f.drop (18 + (bodyBytes xs).length + g.data.length) =
          (f.drop 18).drop ((bodyBytes xs).length + g.data.length) := by
        rw [List.drop_drop]
        congr 1
        try omega
      rw [hdd, h1, bodyBytes_append]
      have hshape : bodyBytes xs ++ bodyBytes [g] ++ rest =
          (bodyBytes xs ++ g.data) ++ (g.status ++ rest) := by
        simp [bodyBytes]
      rw [hshape]
      have hl : (bodyBytes xs ++ g.data).length =
          (bodyBytes xs).length + g.data.length := by
        simp
      rw [← hl, List.drop_left, ← hg18, List.take_left]
    have htc : 0 ≤ sp.triggerCount := statusInit_triggerCount_nonneg _ _ hsp
    have htell : 18 + (bodyBytes (xs ++ [g])).length =
        18 + (bodyBytes xs).length + g.data.length + 18 := by omega
    have hstep := backLoop_step f 18 pos18 id0 netid0
      (18 + (bodyBytes xs).length + g.data.length + 18) locs pkts sp
      (by omega)
      (by
        have hs : 18 + (bodyBytes xs).length + g.data.length + 18 - 18 =
            18 + (bodyBytes xs).length + g.data.length := by omega
        rw [hs, hbytes]
        exact hsp)
      (by simp [hid, hnid])
      (by push_cast; omega)
    have hloc : 18 + (bodyBytes xs).length + g.data.length + 18 - 18 =
        18 + (bodyBytes xs).length + g.data.length := by omega
    have hnew : 18 + (bodyBytes xs).length + g.data.length -
        (sp.triggerCount * 6).toNat = 18 + (bodyBytes xs).length := by
      omega
    have hih := ih (bodyBytes [g] ++ rest)
      (locs ++ [18 + (bodyBytes xs).length + g.data.length]) (pkts ++ [some sp])
      (by rw [h1, bodyBytes_append, List.append_assoc])
      (fun g' hg' => h2 g' (by simp [hg']))
    have hspget : statusGet g.status = sp := by
      unfold statusGet
      rw [hsp]
    rw [htell, hstep, hloc, hnew, hih]
    have htl : trueLocs 18 (xs ++ [g]) =
        trueLocs 18 xs ++ [18 + (bodyBytes xs).length + g.data.length] := by
      rw [trueLocs_append xs [g] hxs18 18]
      simp [trueLocs]
    rw [htl]
    simp [hspget, List.reverse_append]

/-- Well-formedness of one segment against the bootstrap packet `sp0`: its
status record is 18 bytes, decodes, matches the file's `id`/`netid`, and is
fixed-rate (the data region is exactly `triggerCount` records of 6 bytes). -/
def segOKb (sp0 : StatusPacket) (g : RawSeg) : Bool :=
  g.status.length == 18 &&
    match statusInit g.status with
    | .ok sp => sp.id == sp0.id && sp.netid == sp0.netid &&
        g.data.length == sp.triggerCount.toNat * 6
    | .error _ => false

theorem segOKb_spec (sp0 : StatusPacket) (g : RawSeg) (h : segOKb sp0 g = true) :
    g.status.length = 18 ∧
      ∃ sp, statusInit g.status = .ok sp ∧ sp.id = sp0.id ∧
        sp.netid = sp0.netid ∧ g.data.length = sp.triggerCount.toNat * 6 := by
  unfold segOKb at h
  cases hsp : statusInit g.status with
  | error e =>
    rw [hsp] at h
    simp at h
  | ok sp =>
    rw [hsp] at h
    simp only [Bool.and_eq_true, beq_iff_eq] at h
    exact ⟨h.1, sp, rfl, h.2.1.1, h.2.1.2, h.2.2⟩

/-- A well-formed fixed-rate raw file: an 18-byte bootstrap status record
that decodes, segments that all decode with the file's `id`/`netid` and
fixed-rate data lengths, and no spurious status-record pattern: at every
offset other than the true boundaries, the forward probe fails to
decode-and-match (this excludes accidental bit patterns at the misaligned
offsets the forward scan visits). -/
def WellFormed (s0 : List Nat) (segs : List RawSeg) : Prop :=
  s0.length = 18 ∧
    (statusInit s0).isOk = true ∧
    segs.all (fun g => segOKb (statusGet s0) g) = true ∧
    ∀ p, p < (fileBytes s0 segs).length → 18 ≤ p → p ∉ trueLocs 18 segs →
      tryStatus (fileBytes s0 segs) 18 (statusGet s0).id (statusGet s0).netid
        p = none

instance (s0 : List Nat) (segs : List RawSeg) : Decidable (WellFormed s0 segs) := by
  unfold WellFormed
  infer_instance

/-- C4.  On every well-formed fixed-rate raw file, the forward scan strategy
and the backward scan strategy produce identical results: the same ordered
boundary-offset sequence `0 :: trueLocs 18 segs` and the same packet
sequence, both beginning with the placeholder boundary at offset 0 that
carries no record (`none`); the backward scan raises no error and hits no
structural anomaly. -/
theorem c4_scan_strategies_agree (s0 : List Nat) (segs : List RawSeg)
    (hwf : WellFormed s0 segs) :
    searchForwards (fileBytes s0 segs) 18 pos18 (statusGet s0).id
        (statusGet s0).netid =
      (0 :: trueLocs 18 segs,
        none :: segs.map fun g => some (statusGet g.status)) ∧
    searchBackwards (fileBytes s0 segs) 18 pos18 (statusGet s0).id
        (statusGet s0).netid =
      .ok (0 :: trueLocs 18 segs,
        none :: segs.map fun g => some (statusGet g.status), false) := by
  obtain ⟨hs0len, _hok, hall, hnofp⟩ := hwf
  have hall' : ∀ g ∈ segs, g.status.length = 18 ∧
      ∃ sp, statusInit g.status = .ok sp ∧ sp.id = (statusGet s0).id ∧
        sp.netid = (statusGet s0).netid ∧
        g.data.length = sp.triggerCount.toNat * 6 := by
    intro g hg
    refine segOKb_spec _ g ?_
    have := List.all_eq_true.mp hall g hg
    simpa using this
  have hdrop : (fileBytes s0 segs).drop 18 = bodyBytes segs := by
    unfold fileBytes
    rw [← hs0len, List.drop_left]
  have hlenf : (fileBytes s0 segs).length = 18 + (bodyBytes segs).length := by
    unfold fileBytes
    simp [hs0len]
  constructor
  · have hf := fwdLoop_segments (fileBytes s0 segs) (statusGet s0).id
      (statusGet s0).netid segs 18 [0] [none] (by omega) hdrop hall'
      (fun p hp hpl hpm => hnofp p hpl hp hpm)
    unfold searchForwards
    rw [hf]
    simp
  · have hb := backLoop_segments (fileBytes s0 segs) (statusGet s0).id
      (statusGet s0).netid segs [] [] []
      (by rw [hdrop, List.append_nil]) hall'
    unfold searchBackwards
    rw [hlenf, hb]
    simp [Except.map, List.reverse_append]

/-- Bootstrap status record of the concrete C4 witness file (version 12,
sensor id `A`, network id `B`, trigger count 0). -/
def c4Boot : List Nat :=
  [0x19, 0x86, 0x00, 0x80, 0x47, 0x81, 0x23, 0x82, 0x00, 0x80, 0x02, 0x81,
   0x64, 0x80, 0x00, 0x80, 0x00, 0x80]

/-- Status record of the witness file's single segment (same sensor and
network id, trigger count 1). -/
def c4SegStatus : List Nat :=
  [0x19, 0x86, 0x00, 0x80, 0x47, 0x81, 0x23, 0x82, 0x01, 0x80, 0x02, 0x81,
   0x64, 0x80, 0x00, 0x80, 0x00, 0x80]

/-- The witness file's segments: one data record then its status record. -/
def c4Segs : List RawSeg :=
  [{ data := [0x05, 0x00, 0x02, 0x80, 0x03, 0x00], status := c4SegStatus }]

/-- Witness for C4 at the concrete 42-byte fixed-rate file
`c4Boot ++ data ++ c4SegStatus`: well-formedness holds by computation and the
two strategies agree. -/
theorem c4_scan_strategies_agree_witness :
    WellFormed c4Boot c4Segs ∧
      (searchForwards (fileBytes c4Boot c4Segs) 18 pos18 (statusGet c4Boot).id
          (statusGet c4Boot).netid =
        (0 :: trueLocs 18 c4Segs,
          none :: c4Segs.map fun g => some (statusGet g.status)) ∧
      searchBackwards (fileBytes c4Boot c4Segs) 18 pos18 (statusGet c4Boot).id
          (statusGet c4Boot).netid =
        .ok (0 :: trueLocs 18 c4Segs,
          none :: c4Segs.map fun g => some (statusGet g.status), false)) :=
  ⟨by decide, c4_scan_strategies_agree c4Boot c4Segs (by decide)⟩

/-! ## Part 4: `LMAFrame.decimate` (raw_io.py)

A frame's backing array `self._arr` is a numpy structured array with fields
`nano` (int), `power` (float32) and `aboveThresh` (int); powers are modelled
as exact rationals. -/

/-- One element of a frame's backing array (`frameDtype`). -/
structure LMARecord where
  nano : Int
  power : ℚ
  aboveThresh : Int
deriving DecidableEq, Repr, Inhabited

/-- The inner loop of `decimate`: scan forward from `i` while the record's
timestamp is below the window end `nano + W`, keeping the first record of
maximum power seen (strict `>` to replace), and return the kept record and
the index where the loop stopped.  The `i >= len` break is checked before the
condition is re-evaluated, which is the same as guarding the access. -/
def maxLoop (arr : Array LMARecord) (W nano : Int) (i : Nat)
    (maxPeak : LMARecord) : LMARecord × Nat :=
  if h : i < arr.size then
    if arr[i].nano < nano + W then
      maxLoop arr W nano (i + 1)
        (if arr[i].power > maxPeak.power then arr[i] else maxPeak)
    else
      (maxPeak, i)
  else
    (maxPeak, i)
termination_by arr.size - i

theorem maxLoop_snd_ge (arr : Array LMARecord) (W nano : Int)
    (i : Nat) (mp : LMARecord) : i ≤ (maxLoop arr W nano i mp).2 := by
  induction i, mp using maxLoop.induct arr W nano with
  | case1 i mp hlt hcond ih =>
    rw [maxLoop, dif_pos hlt, if_pos hcond]
    exact le_trans (by omega) ih
  | case2 i mp hlt hcond =>
    rw [maxLoop, dif_pos hlt, if_neg hcond]
  | case3 i mp hge =>
    rw [maxLoop, dif_neg hge]

theorem maxLoop_snd_gt (arr : Array LMARecord) (W nano : Int) (i : Nat)
    (mp : LMARecord) (hlt : i < arr.size)
    (hcond : arr[i].nano < nano + W) :
    i < (maxLoop arr W nano i mp).2 := by
  rw [maxLoop, dif_pos hlt, if_pos hcond]
  exact lt_of_lt_of_le (Nat.lt_succ_self i) (maxLoop_snd_ge arr W nano (i + 1) _)

/-- The outer loop of `decimate`: process windows `[nano, nano + W)` while
`nano + W < 1e9` and records remain; a record at or past the window end skips
the window (`nano += windowLength; continue`), otherwise the inner loop
collects the window's first maximum-power record, which is appended to the
output array.  The positivity of `W` is required for the source loop to
terminate at all. -/
def decLoop (arr : Array LMARecord) (W : Int) (hW : 0 < W) (nano : Int)
    (i : Nat) (acc : Array LMARecord) : Array LMARecord :=
  if h : nano + W < 1000000000 ∧ i < arr.size then
    if arr[i].nano ≥ nano + W then
      decLoop arr W hW (nano + W) i acc
    else
      let r := maxLoop arr W nano i arr[i]
      decLoop arr W hW nano r.2 (acc.push r.1)
  else
    acc
termination_by ((1000000000 - nano).toNat, arr.size - i)
decreasing_by
  · left
    omega
  · right
    have := maxLoop_snd_gt arr W nano i arr[i] h.2 (by omega)
    omega

/-- `LMAFrame.decimate(windowLength)`: the array that replaces the frame's
backing store. -/
def decimate (arr : Array LMARecord) (W : Int) (hW : 0 < W) : Array LMARecord :=
  decLoop arr W hW 0 0 #[]

/-- The `maxPeak` accumulation of `decimate`'s inner loop over a list:
the first record of maximum power (strict `>` to replace the current one). -/
def firstMax : LMARecord → List LMARecord → LMARecord
  | m, [] => m
  | m, r :: rs => firstMax (if r.power > m.power then r else m) rs

/-- Modelled from the spec: the records whose timestamp falls in the window
`[nano, nano + W)`. -/
def windowRecords (arr : Array LMARecord) (nano W : Int) : List LMARecord :=
  arr.toList.filter fun r => decide (nano ≤ r.nano ∧ r.nano < nano + W)

/-- Modelled from the spec (§4.5, amended by the source's loop guard): walk
the windows `[nano, nano+W)` of the second in chronological order while the
window's end is strictly below `1e9`; for each non-empty window emit the
first maximum-power record among the records falling in it; windows with no
records emit nothing; windows whose end reaches `1e9` — including the final
partial window — are never processed. -/
def specDecimateLoop (arr : Array LMARecord) (W : Int) (hW : 0 < W)
    (nano : Int) : List LMARecord :=
  if _h : nano + W < 1000000000 then
    match windowRecords arr nano W with
    | [] => specDecimateLoop arr W hW (nano + W)
    | r :: rs => firstMax r rs :: specDecimateLoop arr W hW (nano + W)
  else []
termination_by (1000000000 - nano).toNat
decreasing_by all_goals omega

/-- The specification-side decimation result. -/
def specDecimate (arr : Array LMARecord) (W : Int) (hW : 0 < W) :
    List LMARecord :=
  specDecimateLoop arr W hW 0

theorem pos5e8 : (0 : Int) < 500000000 := by decide

/-- The one-record frame whose record lies in the final window of the
second. -/
def c8Arr : Array LMARecord :=
  #[{ nano := 600000000, power := 1, aboveThresh := 0 }]

/-- C8 counterexample.  With `W = 5e8` the second splits into the windows
`[0, 5e8)` and `[5e8, 1e9)`; the single record, at 6e8 with positive power,
falls in the second (final) window, yet `decimate` returns an empty array:
the loop guard `nano + windowLength < 1e9` stops before the final window is
processed, so its records are dropped rather than decimated. -/
theorem c8_final_window_counterexample :
    (500000000 : Int) ≤ 600000000 ∧ (600000000 : Int) < 1000000000 ∧
      windowRecords c8Arr 500000000 500000000 =
        [{ nano := 600000000, power := 1, aboveThresh := 0 }] ∧
      decimate c8Arr 500000000 pos5e8 = #[] := by
  refine ⟨by decide, by decide, by decide, ?_⟩
  simp [decimate, decLoop, c8Arr]

/-- The inner loop computes the first maximum of the within-window run
starting at `i` and stops at the first index past it. -/
theorem maxLoop_eq_run (arr : Array LMARecord) (W nano : Int) (i : Nat)
    (mp : LMARecord) :
    maxLoop arr W nano i mp =
      (firstMax mp ((arr.toList.drop i).takeWhile fun r =>
          decide (r.nano < nano + W)),
        i + ((arr.toList.drop i).takeWhile fun r =>
          decide (r.nano < nano + W)).length) := by
  induction i, mp using maxLoop.induct arr W nano with
  | case1 i mp hlt hcond ih =>
    simp only [dite_eq_ite] at ih
    rw [maxLoop, dif_pos hlt, if_pos hcond]
    have hdrop : arr.toList.drop i = arr[i] :: arr.toList.drop (i + 1) := by
      rw [List.drop_eq_getElem_cons (by simpa using hlt)]
      simp
    rw [hdrop, List.takeWhile_cons,
      if_pos (show decide (arr[i].nano < nano + W) = true by simpa using hcond)]
    simp only [firstMax, List.length_cons]
    rw [ih]
    simp only [Prod.mk.injEq]
    exact ⟨by trivial, by omega⟩
  | case2 i mp hlt hcond =>
    rw [maxLoop, dif_pos hlt, if_neg hcond]
    have hdrop : arr.toList.drop i = arr[i] :: arr.toList.drop (i + 1) := by
      rw [List.drop_eq_getElem_cons (by simpa using hlt)]
      simp
    rw [hdrop, List.takeWhile_cons,
      if_neg (show ¬ decide (arr[i].nano < nano + W) = true by simpa using hcond)]
    simp [firstMax]
  | case3 i mp hge =>
    rw [maxLoop, dif_neg hge]
    rw [List.drop_eq_nil_of_le (by simp; omega)]
    simp [firstMax]

/-- In a list sorted by timestamp every record past the within-window run is
at or past the window end. -/
theorem sorted_dropWhile_ge (c : Int) :
    ∀ (l : List LMARecord), l.Pairwise (fun a b => a.nano ≤ b.nano) →
      ∀ r ∈ l.dropWhile (fun r => decide (r.nano < c)), c ≤ r.nano := by
  intro l
  induction l with
  | nil => intro _ r hr; cases hr
  | cons a l ih =>
    intro hpw r hr
    rw [List.dropWhile_cons] at hr
    by_cases ha : a.nano < c
    · rw [if_pos (by simpa using ha)] at hr
      exact ih (List.pairwise_cons.mp hpw).2 r hr
    · rw [if_neg (by simpa using ha)] at hr
      rcases List.mem_cons.mp hr with hq | hq
      · subst hq
        omega
      · have := (List.pairwise_cons.mp hpw).1 r hq
        omega

/-- In a sorted list whose records are all at or past the window start, the
records falling in the window are exactly the within-window run. -/
theorem sorted_filter_eq_takeWhile (nano W : Int) :
    ∀ (l : List LMARecord), l.Pairwise (fun a b => a.nano ≤ b.nano) →
      (∀ r ∈ l, nano ≤ r.nano) →
      l.filter (fun r => decide (nano ≤ r.nano ∧ r.nano < nano + W)) =
        l.takeWhile fun r => decide (r.nano < nano + W) := by
  intro l
  induction l with
  | nil => intro _ _; rfl
  | cons a l ih =>
    intro hpw hge
    rw [List.filter_cons, List.takeWhile_cons]
    by_cases ha : a.nano < nano + W
    · rw [if_pos (by simp; exact ⟨hge a (by simp), ha⟩),
        if_pos (by simpa using ha)]
      rw [ih (List.pairwise_cons.mp hpw).2 fun r hr => hge r (by simp [hr])]
    · rw [if_neg (by simp; intro _; omega), if_neg (by simpa using ha)]
      refine List.filter_eq_nil_iff.mpr ?_
      intro r hr
      have := (List.pairwise_cons.mp hpw).1 r hr
      simp
      intro _
      omega

/-- When the record at the cursor (if any) is at or past the window end, the
outer loop's next move is to the next window whatever the guard says. -/
theorem decLoop_force (arr : Array LMARecord) (W : Int) (hW : 0 < W)
    (nano : Int) (i : Nat) (acc : Array LMARecord)
    (h : ∀ hi : i < arr.size, arr[i].nano ≥ nano + W) :
    decLoop arr W hW nano i acc = decLoop arr W hW (nano + W) i acc := by
  by_cases h1 : nano + W < 1000000000 ∧ i < arr.size
  · conv_lhs => rw [decLoop]
    rw [dif_pos h1, if_pos (h h1.2)]
  · conv_lhs => rw [decLoop]
    rw [dif_neg h1]
    rcases not_and_or.mp h1 with h2 | h2
    · rw [decLoop, dif_neg (by intro hc; exact h2 (by omega))]
    · rw [decLoop, dif_neg (by intro hc; exact h2 hc.2)]

/-- Once every record lies strictly before the current window start, the
remaining windows are all empty and the specification loop emits nothing. -/
theorem specLoop_nil (arr : Array LMARecord) (W : Int) (hW : 0 < W) :
    ∀ (nano : Int), (∀ r ∈ arr.toList, r.nano < nano) →
      specDecimateLoop arr W hW nano = [] := by
  intro nano
  induction nano using specDecimateLoop.induct arr W hW with
  | case1 nano hguard hwin ih =>
    intro hall
    rw [specDecimateLoop, dif_pos hguard, hwin]
    exact ih fun r hr => by have := hall r hr; omega
  | case2 nano hguard r rs hwin ih =>
    intro hall
    exfalso
    have hr : r ∈ windowRecords arr nano W := by rw [hwin]; simp
    have hmem := List.mem_filter.mp hr
    have := hall r hmem.1
    have hcond := hmem.2
    simp at hcond
    omega
  | case3 nano hguard =>
    intro _
    rw [specDecimateLoop, dif_neg hguard]

/-- In a sorted frame every record from the cursor onward is at or past the
cursor's record. -/
theorem sorted_drop_ge (arr : Array LMARecord)
    (hsort : arr.toList.Pairwise fun a b => a.nano ≤ b.nano)
    (i : Nat) (hi : i < arr.size) :
    ∀ r ∈ arr.toList.drop i, arr[i].nano ≤ r.nano := by
  intro r hr
  rw [List.drop_eq_getElem_cons (by simpa using hi)] at hr
  rcases List.mem_cons.mp hr with hq | hq
  · subst hq
    simp
  · have hpw := hsort.sublist (List.drop_sublist i arr.toList)
    rw [List.drop_eq_getElem_cons (by simpa using hi)] at hpw
    have := (List.pairwise_cons.mp hpw).1 r hq
    simpa using this

/-- The outer loop agrees with the specification loop from any reachable
state: `i` splits the sorted frame into processed records (strictly before
the window start) and pending records (at or past it). -/
theorem decLoop_eq_spec (arr : Array LMARecord) (W : Int) (hW : 0 < W)
    (hsort : arr.toList.Pairwise fun a b => a.nano ≤ b.nano) :
    ∀ (k : Nat) (nano : Int) (i : Nat) (acc : Array LMARecord),
      (1000000000 - nano).toNat + (arr.size - i) ≤ k →
      (∀ r ∈ arr.toList.take i, r.nano < nano) →
      (∀ r ∈ arr.toList.drop i, nano ≤ r.nano) →
      (decLoop arr W hW nano i acc).toList =
        acc.toList ++ specDecimateLoop arr W hW nano := by
  intro k
  induction k with
  | zero =>
    intro nano i acc hk _hB _hA
    rw [decLoop, dif_neg (by intro hc; omega)]
    rw [specDecimateLoop, dif_neg (by omega)]
    simp
  | succ k ih =>
    intro nano i acc hk hB hA
    by_cases hg : nano + W < 1000000000 ∧ i < arr.size
    · obtain ⟨hg1, hg2⟩ := hg
      by_cases hskip : arr[i].nano ≥ nano + W
      · -- the record at the cursor is past the window end: skip the window
        conv_lhs => rw [decLoop]
        rw [dif_pos ⟨hg1, hg2⟩, if_pos hskip]
        have hwin : windowRecords arr nano W = [] := by
          refine List.filter_eq_nil_iff.mpr ?_
          intro r hr
          rw [← List.take_append_drop i arr.toList] at hr
          simp only [decide_eq_true_eq, not_and, not_lt]
          rcases List.mem_append.mp hr with hr | hr
          · intro hge
            exact absurd hge (by have := hB r hr; omega)
          · intro _
            have := sorted_drop_ge arr hsort i hg2 r hr
            omega
        rw [specDecimateLoop, dif_pos hg1, hwin]
        refine ih (nano + W) i acc (by omega) ?_ ?_
        · intro r hr
          have := hB r hr
          omega
        · intro r hr
          have := sorted_drop_ge arr hsort i hg2 r hr
          omega
      · -- the record at the cursor is inside the window: collect its run
        push_neg at hskip
        conv_lhs => rw [decLoop]
        rw [dif_pos ⟨hg1, hg2⟩, if_neg (by omega)]
        rw [maxLoop_eq_run arr W nano i arr[i]]
        have hdropc : arr.toList.drop i = arr[i] :: arr.toList.drop (i + 1) := by
          rw [List.drop_eq_getElem_cons (by simpa using hg2)]
          simp
        have hrun_cons :
            (arr.toList.drop i).takeWhile (fun r => decide (r.nano < nano + W)) =
              arr[i] :: (arr.toList.drop (i + 1)).takeWhile
                (fun r => decide (r.nano < nano + W)) := by
          rw [hdropc, List.takeWhile_cons,
            if_pos (show decide (arr[i].nano < nano + W) = true by
              simpa using hskip)]
        have hsplit :
            ((arr.toList.drop i).takeWhile fun r => decide (r.nano < nano + W)) ++
              ((arr.toList.drop i).dropWhile fun r => decide (r.nano < nano + W)) =
              arr.toList.drop i :=
          List.takeWhile_append_dropWhile (fun r => decide (r.nano < nano + W))
            (arr.toList.drop i)
        have hwin : windowRecords arr nano W =
            (arr.toList.drop i).takeWhile (fun r => decide (r.nano < nano + W)) := by
          unfold windowRecords
          conv_lhs => rw [← List.take_append_drop i arr.toList]
          rw [List.filter_append,
            List.filter_eq_nil_iff.mpr (fun r hr => by
              simp only [decide_eq_true_eq, not_and, not_lt]
              intro hge
              exact absurd hge (by have := hB r hr; omega)),
            sorted_filter_eq_takeWhile nano W (arr.toList.drop i)
              (hsort.sublist (List.drop_sublist i arr.toList)) hA]
          simp
        have hdw : arr.toList.drop
            (i + ((arr.toList.drop i).takeWhile fun r =>
              decide (r.nano < nano + W)).length) =
            (arr.toList.drop i).dropWhile fun r => decide (r.nano < nano + W) := by
          rw [← List.drop_drop]
          have h1 : (arr.toList.drop i).drop
              ((arr.toList.drop i).takeWhile fun r =>
                decide (r.nano < nano + W)).length =
              (((arr.toList.drop i).takeWhile fun r => decide (r.nano < nano + W)) ++
                ((arr.toList.drop i).dropWhile fun r =>
                  decide (r.nano < nano + W))).drop
                ((arr.toList.drop i).takeWhile fun r =>
                  decide (r.nano < nano + W)).length := by
            rw [hsplit]
          rw [h1, List.drop_left]
        have hforce := decLoop_force arr W hW nano
          (i + ((arr.toList.drop i).takeWhile fun r =>
            decide (r.nano < nano + W)).length)
          (acc.push (firstMax arr[i] ((arr.toList.drop i).takeWhile fun r =>
            decide (r.nano < nano + W))))
          (fun hi => by
            have hmem : arr[i + ((arr.toList.drop i).takeWhile fun r =>
                decide (r.nano < nano + W)).length] ∈
                arr.toList.drop (i + ((arr.toList.drop i).takeWhile fun r =>
                  decide (r.nano < nano + W)).length) := by
              rw [List.drop_eq_getElem_cons (by simpa using hi)]
              simp
            rw [hdw] at hmem
            exact sorted_dropWhile_ge (nano + W) (arr.toList.drop i)
              (hsort.sublist (List.drop_sublist i arr.toList)) _ hmem)
        rw [hforce]
        have hB2 : ∀ r ∈ arr.toList.take
            (i + ((arr.toList.drop i).takeWhile fun r =>
              decide (r.nano < nano + W)).length), r.nano < nano + W := by
          intro r hr
          rw [List.take_add] at hr
          rcases List.mem_append.mp hr with hr | hr
          · have := hB r hr
            omega
          · have htk : (arr.toList.drop i).take
                ((arr.toList.drop i).takeWhile fun r =>
                  decide (r.nano < nano + W)).length =
                (arr.toList.drop i).takeWhile fun r => decide (r.nano < nano + W) := by
              have h1 : (arr.toList.drop i).take
                  ((arr.toList.drop i).takeWhile fun r =>
                    decide (r.nano < nano + W)).length =
                  (((arr.toList.drop i).takeWhile fun r =>
                    decide (r.nano < nano + W)) ++
                    ((arr.toList.drop i).dropWhile fun r =>
                      decide (r.nano < nano + W))).take
                    ((arr.toList.drop i).takeWhile fun r =>
                      decide (r.nano < nano + W)).length := by
                rw [hsplit]
              rw [h1, List.take_left]
            rw [htk] at hr
            have := List.mem_takeWhile_imp hr
            simpa using this
        have hA2 : ∀ r ∈ arr.toList.drop
            (i + ((arr.toList.drop i).takeWhile fun r =>
              decide (r.nano < nano + W)).length), nano + W ≤ r.nano := by
          intro r hr
          rw [hdw] at hr
          exact sorted_dropWhile_ge (nano + W) (arr.toList.drop i)
            (hsort.sublist (List.drop_sublist i arr.toList)) r hr
        have hlen1 : 0 < ((arr.toList.drop i).takeWhile fun r =>
            decide (r.nano < nano + W)).length := by
          rw [hrun_cons]
          simp
        rw [ih (nano + W)
          (i + ((arr.toList.drop i).takeWhile fun r =>
            decide (r.nano < nano + W)).length)
          (acc.push (firstMax arr[i] ((arr.toList.drop i).takeWhile fun r =>
            decide (r.nano < nano + W))))
          (by omega) hB2 hA2]
        have hfm : firstMax arr[i]
            (arr[i] :: (arr.toList.drop (i + 1)).takeWhile
              (fun r => decide (r.nano < nano + W))) =
            firstMax arr[i] ((arr.toList.drop (i + 1)).takeWhile
              (fun r => decide (r.nano < nano + W))) := by
          simp only [firstMax]
          rw [if_neg (lt_irrefl _)]
        conv_rhs => rw [specDecimateLoop]
        rw [dif_pos hg1, hwin, hrun_cons]
        dsimp only
        rw [Array.push_toList, hfm]
        simp
    · -- loop exit: either the second is exhausted or the records are
      conv_lhs => rw [decLoop]
      rw [dif_neg hg]
      rcases not_and_or.mp hg with h2 | h2
      · rw [specDecimateLoop, dif_neg h2]
        simp
      · have hall : ∀ r ∈ arr.toList, r.nano < nano := by
          intro r hr
          refine hB r ?_
          rw [List.take_of_length_le (by simp; omega)]
          exact hr
        rw [specLoop_nil arr W hW nano hall]
        simp

theorem pos8e4 : (0 : Int) < 80000 := by decide

/-- C8 amended.  For every frame whose records are in non-decreasing
nanosecond order with non-negative timestamps, `decimate(W)` produces exactly
the specification result: the windows `[k*W, (k+1)*W)` with `(k+1)*W < 1e9`
in chronological order, each non-empty one contributing its first
maximum-power record, empty ones contributing nothing; records falling in a
window whose end reaches `1e9` — in particular the final partial window — are
dropped. -/
theorem c8_amended_decimate_spec (arr : Array LMARecord) (W : Int)
    (hW : 0 < W)
    (hsort : arr.toList.Pairwise fun a b => a.nano ≤ b.nano)
    (hnn : ∀ r ∈ arr.toList, 0 ≤ r.nano) :
    (decimate arr W hW).toList = specDecimate arr W hW := by
  unfold decimate specDecimate
  have h := decLoop_eq_spec arr W hW hsort
    ((1000000000 - 0 : Int).toNat + (arr.size - 0)) 0 0 #[]
    (by omega) (by simp)
    (by
      intro r hr
      exact hnn r (by simpa using hr))
  simpa using h

/-- Witness for C8's amended theorem: a two-record sorted frame with
non-negative timestamps and `W = 80000`. -/
theorem c8_amended_decimate_spec_witness :
    ((0 : Int) < 80000 ∧
      (#[({ nano := 5, power := 1, aboveThresh := 0 } : LMARecord),
          { nano := 10, power := 2, aboveThresh := 0 }] :
            Array LMARecord).toList.Pairwise (fun a b => a.nano ≤ b.nano) ∧
      ∀ r ∈ (#[({ nano := 5, power := 1, aboveThresh := 0 } : LMARecord),
          { nano := 10, power := 2, aboveThresh := 0 }] :
            Array LMARecord).toList, 0 ≤ r.nano) ∧
    (decimate #[({ nano := 5, power := 1, aboveThresh := 0 } : LMARecord),
        { nano := 10, power := 2, aboveThresh := 0 }] 80000 pos8e4).toList =
      specDecimate #[({ nano := 5, power := 1, aboveThresh := 0 } : LMARecord),
        { nano := 10, power := 2, aboveThresh := 0 }] 80000 pos8e4 :=
  ⟨⟨by decide, by decide, by decide⟩,
    c8_amended_decimate_spec _ 80000 pos8e4 (by decide) (by decide)⟩

/-! ## Part 5: `LMAFrame` backing-store aliasing (raw_io.py)

numpy buffer aliasing is modelled by an explicit store: frames hold a pointer
(`_arr` object identity) into an arena of buffers; `None` backing arrays are
a `none` pointer.  In-place `resize` mutates the pointed-to buffer (visible
through every alias); rebinding `self._arr` re-points the frame only. -/

/-- The arena of numpy buffers: an allocation counter and the contents at
each pointer. -/
structure Store where
  size : Nat
  mem : Nat → List LMARecord

/-- The contents of the buffer `p` points to. -/
def storeGet (h : Store) (p : Nat) : List LMARecord := h.mem p

/-- Allocating a fresh buffer with the given contents. -/
def storeAlloc (h : Store) (v : List LMARecord) : Store × Nat :=
  ({ size := h.size + 1,
     mem := fun q => if q = h.size then v else h.mem q }, h.size)

/-- Mutating the buffer `p` points to (numpy's in-place
`resize(refcheck=False)` followed by element assignment). -/
def storeSet (h : Store) (p : Nat) (v : List LMARecord) : Store :=
  { size := h.size, mem := fun q => if q = p then v else h.mem q }

/-- A frame's mutable backing pointer: `self._arr`, `none` when unset. -/
structure FrameObj where
  arrPtr : Option Nat
deriving DecidableEq, Repr

/-- `LMAFrame.append`: with no backing array, build a fresh one-record buffer
(`np.empty(0)` then in-place resize); otherwise resize the existing buffer in
place, so every alias of it sees the new record. -/
def frameAppend (h : Store) (f : FrameObj) (r : LMARecord) :
    Store × FrameObj :=
  match f.arrPtr with
  | none =>
    let a := storeAlloc h [r]
    (a.1, { arrPtr := some a.2 })
  | some p =>
    (storeSet h p (storeGet h p ++ [r]), f)

/-- `LMAFrame.copy`: with `inplace = true` (the default) copy the backing
buffer into a fresh allocation, re-point the frame itself at it, and return
`None` — no new frame; with `inplace = false` return a new frame whose
backing store is a fresh copy, leaving the source untouched.  A frame whose
`_arr` is `None` crashes on `None.copy()` (`none` result). -/
def frameCopy (h : Store) (f : FrameObj) (inplace : Bool) :
    Option (Store × FrameObj × Option FrameObj) :=
  match f.arrPtr with
  | none => none
  | some p =>
    if inplace then
      let a := storeAlloc h (storeGet h p)
      some (a.1, { arrPtr := some a.2 }, none)
    else
      let a := storeAlloc h (storeGet h p)
      some (a.1, f, some { arrPtr := some a.2 })

/-- `LMAFrame.decimate`: build the decimated array in a fresh buffer
(`np.empty(0)` grown by resize), then rebind `self._arr` to it; the old
buffer itself is not written, so aliases keep the old contents.  Crashes on a
frame with no backing array (`len(None)`). -/
def frameDecimate (h : Store) (f : FrameObj) (W : Int) (hW : 0 < W) :
    Option (Store × FrameObj) :=
  match f.arrPtr with
  | none => none
  | some p =>
    let a := storeAlloc h (decimate (storeGet h p).toArray W hW).toList
    some (a.1, { arrPtr := some a.2 })

/-- A one-buffer store holding three records, and a frame backed by it. -/
def c9Store : Store :=
  { size := 1,
    mem := fun q => if q = 0 then
      [{ nano := 1, power := 2, aboveThresh := 3 }] else [] }

def c9FrameObj : FrameObj := { arrPtr := some 0 }

/-- C9 counterexample.  `g = f.copy()` with the source's default
`inplace=True` does not return a Frame at all: the method re-points `f`'s own
backing store at a fresh copy and returns `None`, so there is no `g` whose
mutation could even be discussed. -/
theorem c9_default_copy_returns_no_frame :
    Option.map (fun t => t.2.2) (frameCopy c9Store c9FrameObj true) =
      some none := by
  rfl

/-- Reduction lemmas for the frame operations on a frame with a backing
array. -/
theorem frameAppend_some (h : Store) (f : FrameObj) (p : Nat) (r : LMARecord)
    (hp : f.arrPtr = some p) :
    frameAppend h f r = (storeSet h p (storeGet h p ++ [r]), f) := by
  unfold frameAppend
  rw [hp]

theorem frameCopy_some (h : Store) (f : FrameObj) (p : Nat)
    (hp : f.arrPtr = some p) (inplace : Bool) :
    frameCopy h f inplace =
      (if inplace then
        some ((storeAlloc h (storeGet h p)).1,
          { arrPtr := some (storeAlloc h (storeGet h p)).2 }, none)
      else
        some ((storeAlloc h (storeGet h p)).1, f,
          some { arrPtr := some (storeAlloc h (storeGet h p)).2 })) := by
  unfold frameCopy
  rw [hp]

theorem frameDecimate_some (h : Store) (f : FrameObj) (p : Nat) (W : Int)
    (hW : 0 < W) (hp : f.arrPtr = some p) :
    frameDecimate h f W hW =
      some ((storeAlloc h (decimate (storeGet h p).toArray W hW).toList).1,
        { arrPtr :=
          some (storeAlloc h (decimate (storeGet h p).toArray W hW).toList).2 }) := by
  unfold frameDecimate
  rw [hp]

theorem storeGet_alloc_ne (h : Store) (v : List LMARecord) (p : Nat)
    (hne : p ≠ h.size) : storeGet (storeAlloc h v).1 p = storeGet h p := by
  simp [storeAlloc, storeGet, hne]

theorem storeGet_alloc_eq (h : Store) (v : List LMARecord) :
    storeGet (storeAlloc h v).1 h.size = v := by
  simp [storeAlloc, storeGet]

theorem storeGet_set_ne (h : Store) (q : Nat) (v : List LMARecord) (p : Nat)
    (hne : p ≠ q) : storeGet (storeSet h q v) p = storeGet h p := by
  simp [storeSet, storeGet, hne]

/-- C9 amended.  `copy(inplace := false)` returns a frame `g` whose backing
store is a fresh buffer with the same contents, and the two frames are
independent: appending to or decimating either one leaves the records of the
other unchanged (while `copy()` with the default `inplace = true` returns
`None` and merely re-points the source, as the counterexample records). -/
theorem c9_amended_copy_independent (h : Store) (f : FrameObj) (p : Nat)
    (hp : f.arrPtr = some p) (hv : p < h.size) :
    ∃ h1 g, frameCopy h f false = some (h1, f, some g) ∧
      g.arrPtr = some h.size ∧
      storeGet h1 p = storeGet h p ∧
      storeGet h1 h.size = storeGet h p ∧
      (∀ r : LMARecord,
        storeGet (frameAppend h1 g r).1 p = storeGet h1 p ∧
        storeGet (frameAppend h1 f r).1 h.size = storeGet h1 h.size) ∧
      (∀ (W : Int) (hW : 0 < W),
        (∀ res, frameDecimate h1 g W hW = some res →
          storeGet res.1 p = storeGet h1 p) ∧
        (∀ res, frameDecimate h1 f W hW = some res →
          storeGet res.1 h.size = storeGet h1 h.size)) := by
  refine ⟨(storeAlloc h (storeGet h p)).1, { arrPtr := some h.size }, ?_, rfl,
    ?_, ?_, ?_, ?_⟩
  · rw [frameCopy_some h f p hp false]
    rfl
  · exact storeGet_alloc_ne h _ p (by omega)
  · exact storeGet_alloc_eq h _
  · intro r
    constructor
    · rw [frameAppend_some _ ({ arrPtr := some h.size } : FrameObj) h.size r rfl]
      exact storeGet_set_ne _ h.size _ p (by omega)
    · rw [frameAppend_some _ f p r hp]
      exact storeGet_set_ne _ p _ h.size (by omega)
  · intro W hW
    constructor
    · intro res hres
      rw [frameDecimate_some _ ({ arrPtr := some h.size } : FrameObj) h.size W hW rfl]
        at hres
      cases hres
      exact storeGet_alloc_ne _ _ p (by simp [storeAlloc]; omega)
    · intro res hres
      rw [frameDecimate_some _ f p W hW hp] at hres
      cases hres
      exact storeGet_alloc_ne _ _ h.size (by simp [storeAlloc])

/-- Witness for C9's amended theorem at the concrete one-buffer store. -/
theorem c9_amended_copy_independent_witness :
    (c9FrameObj.arrPtr = some 0 ∧ 0 < c9Store.size) ∧
      (∃ h1 g, frameCopy c9Store c9FrameObj false = some (h1, c9FrameObj, some g) ∧
        g.arrPtr = some c9Store.size ∧
        storeGet h1 0 = storeGet c9Store 0 ∧
        storeGet h1 c9Store.size = storeGet c9Store 0 ∧
        (∀ r : LMARecord,
          storeGet (frameAppend h1 g r).1 0 = storeGet h1 0 ∧
          storeGet (frameAppend h1 c9FrameObj r).1 c9Store.size =
            storeGet h1 c9Store.size) ∧
        (∀ (W : Int) (hW : 0 < W),
          (∀ res, frameDecimate h1 g W hW = some res →
            storeGet res.1 0 = storeGet h1 0) ∧
          (∀ res, frameDecimate h1 c9FrameObj W hW = some res →
            storeGet res.1 c9Store.size = storeGet h1 c9Store.size))) :=
  ⟨⟨rfl, by decide⟩,
    c9_amended_copy_independent c9Store c9FrameObj 0 rfl (by decide)⟩
